import Mathlib

/-!
Verification of the writer-preferring read/write mutex pair
(`ReadWriteMutex` and `RecursiveReadWriteMutex` from ReadWriteMutex.cpp).

Two models are developed, both translated directly from the C++ source.

1. `ReadWriteMutex`: an interleaving transition system.  Every atomic
   action of the C++ methods (mutex lock, mutex unlock, atomic
   fetch_add, atomic load and store, condition-variable wait and
   notify_all) is one transition.  Each thread has a program counter
   ranging over the intermediate points of the four methods; the global
   state holds the two internal mutexes (as the index of the owning
   thread), the atomic reader counter and the atomic waiting flag.
   `Cv.wait(lk)` is split into two steps (decided to wait, actually
   blocked) because the waiting thread enqueues on the condition
   variable some time after loading `ReadCounter`; `Cv.notify_all()`
   wakes exactly the threads that are blocked at that instant.  The
   local mutex `mtx` of `WriteLock` is thread-local and contended by
   nobody, so it adds no synchronization and is not part of the state.
   `ReadCounter` is a C++ `std::atomic_int`; it is modelled as an
   unbounded `Int` (signed overflow is undefined behaviour in C++ and
   the proved invariant bounds the counter by the thread count).

2. `RecursiveReadWriteMutex`: the wrapper methods only read and write
   the two thread-local `std::size_t` depth counters and decide which
   underlying calls to forward, so for one calling thread they are pure
   functions from the thread-local state to a new state plus the list
   of forwarded calls.  The `size_t` counters use arithmetic modulo
   2 ^ 64.  The mode the calling thread holds on the underlying lock is
   tracked by folding the forwarded calls.
-/

/-- Modulus of the C++ `std::size_t` counters (64-bit unsigned). -/
def usizeMod : Nat := 2 ^ 64

/-- A call forwarded by `RecursiveReadWriteMutex` to its underlying
`ReadWriteMutex` member `Rwmx`. -/
inductive BaseCall
  | readLock
  | readUnlock
  | writeLock
  | writeUnlock
deriving DecidableEq, Repr

/-- Mode in which the calling thread holds the underlying
`ReadWriteMutex`: not at all, shared (read) or exclusive (write). -/
inductive HoldMode
  | free
  | shared
  | exclusive
deriving DecidableEq, Repr

/-- Effect of one underlying call on the mode held by the calling
thread: `ReadLock` acquires shared access, `WriteLock` exclusive
access, and each unlock releases what the thread held. -/
def HoldMode.applyCall : HoldMode → BaseCall → HoldMode
  | _, .readLock => .shared
  | _, .readUnlock => .free
  | _, .writeLock => .exclusive
  | _, .writeUnlock => .free

/-- Folding a list of underlying calls over the held mode. -/
def HoldMode.applyCalls (m : HoldMode) (calls : List BaseCall) : HoldMode :=
  calls.foldl HoldMode.applyCall m

namespace RecursiveReadWriteMutex

/-- The two thread-local `std::size_t` depth counters of
`RecursiveReadWriteMutex` (values below `usizeMod`). -/
structure ThreadState where
  LocalThreadReadLockCounter : Nat
  LocalThreadWriteLockCounter : Nat
deriving DecidableEq, Repr

/-- Both counters zero: the state of a fresh thread. -/
def ThreadState.clean : ThreadState := ⟨0, 0⟩

/-- The C++ prefix increment on a `std::size_t` value: addition modulo
`2 ^ 64`, written as a case split so that terms stay small; the theorem
`usizeInc_mod` proves it equal to `(x + 1) % usizeMod` on `size_t`
values. -/
def usizeInc (x : Nat) : Nat := if x + 1 = usizeMod then 0 else x + 1

/-- The C++ prefix decrement on a `std::size_t` value: subtraction
modulo `2 ^ 64`, wrapping to `2 ^ 64 - 1` at zero, written as a case
split so that terms stay small; the theorem `usizeDec_mod` proves it
equal to `(x + (usizeMod - 1)) % usizeMod` on `size_t` values. -/
def usizeDec (x : Nat) : Nat := if x = 0 then usizeMod - 1 else x - 1

/-- Model of `RecursiveReadWriteMutex::ReadLock`: when
`LocalThreadWriteLockCounter == 0`, forward `Rwmx.ReadLock()` if
`LocalThreadReadLockCounter == 0` and increment the read depth;
otherwise do nothing. -/
def ReadLock (s : ThreadState) : ThreadState × List BaseCall :=
  if s.LocalThreadWriteLockCounter = 0 then
    ({ s with LocalThreadReadLockCounter := usizeInc s.LocalThreadReadLockCounter },
     if s.LocalThreadReadLockCounter = 0 then [.readLock] else [])
  else (s, [])

/-- Model of `RecursiveReadWriteMutex::ReadUnlock`: when
`LocalThreadWriteLockCounter == 0`, forward `Rwmx.ReadUnlock()` if
`LocalThreadReadLockCounter == 1` and decrement the read depth;
otherwise do nothing. -/
def ReadUnlock (s : ThreadState) : ThreadState × List BaseCall :=
  if s.LocalThreadWriteLockCounter = 0 then
    ({ s with LocalThreadReadLockCounter := usizeDec s.LocalThreadReadLockCounter },
     if s.LocalThreadReadLockCounter = 1 then [.readUnlock] else [])
  else (s, [])

/-- Model of `RecursiveReadWriteMutex::WriteLock`: when
`LocalThreadWriteLockCounter == 0`, forward `Rwmx.ReadUnlock()` if
`LocalThreadReadLockCounter > 0` and then `Rwmx.WriteLock()`; the
write depth is always incremented. -/
def WriteLock (s : ThreadState) : ThreadState × List BaseCall :=
  ({ s with LocalThreadWriteLockCounter := usizeInc s.LocalThreadWriteLockCounter },
   if s.LocalThreadWriteLockCounter = 0 then
     (if s.LocalThreadReadLockCounter > 0 then [.readUnlock] else []) ++ [.writeLock]
   else [])

/-- Model of `RecursiveReadWriteMutex::WriteUnlock`: when
`LocalThreadWriteLockCounter == 1`, forward `Rwmx.WriteUnlock()` and
then `Rwmx.ReadLock()` if `LocalThreadReadLockCounter > 0`; the write
depth is always decremented. -/
def WriteUnlock (s : ThreadState) : ThreadState × List BaseCall :=
  ({ s with LocalThreadWriteLockCounter := usizeDec s.LocalThreadWriteLockCounter },
   if s.LocalThreadWriteLockCounter = 1 then
     .writeUnlock :: (if s.LocalThreadReadLockCounter > 0 then [.readLock] else [])
   else [])

/-- One of the four public operations of `RecursiveReadWriteMutex`. -/
inductive Op
  | readLock
  | readUnlock
  | writeLock
  | writeUnlock
deriving DecidableEq, Repr

/-- Dispatch one operation. -/
def applyOp (s : ThreadState) : Op → ThreadState × List BaseCall
  | .readLock => ReadLock s
  | .readUnlock => ReadUnlock s
  | .writeLock => WriteLock s
  | .writeUnlock => WriteUnlock s

/-- Run a sequence of operations by one thread, returning the final
thread-local state and the concatenated list of forwarded underlying
calls. -/
def run (s : ThreadState) : List Op → ThreadState × List BaseCall
  | [] => (s, [])
  | op :: rest =>
      ((run (applyOp s op).1 rest).1,
       (applyOp s op).2 ++ (run (applyOp s op).1 rest).2)

/-- Guard under which one operation is a proper use from state `s`:
each unlock has a matching earlier lock still open (no depth is
decremented below zero) and no depth counter overflows `size_t`. -/
def opBalanced (s : ThreadState) : Op → Bool
  | .readLock => decide (0 < s.LocalThreadWriteLockCounter) ||
      decide (s.LocalThreadReadLockCounter + 1 < usizeMod)
  | .readUnlock => decide (0 < s.LocalThreadWriteLockCounter) ||
      decide (0 < s.LocalThreadReadLockCounter)
  | .writeLock => decide (s.LocalThreadWriteLockCounter + 1 < usizeMod)
  | .writeUnlock => decide (0 < s.LocalThreadWriteLockCounter)

/-- A sequence of operations is balanced from state `s` when every
operation in it satisfies `opBalanced` at the state it runs in. -/
def balancedFrom (s : ThreadState) : List Op → Bool
  | [] => true
  | op :: rest => opBalanced s op && balancedFrom (applyOp s op).1 rest

/-- Invariant of claim C2: the underlying lock is held in shared mode
iff the read depth is positive and the write depth zero, and held in
exclusive mode iff the write depth is positive. -/
def HoldInv (s : ThreadState) (m : HoldMode) : Prop :=
  (m = .shared ↔ (0 < s.LocalThreadReadLockCounter ∧ s.LocalThreadWriteLockCounter = 0)) ∧
  (m = .exclusive ↔ 0 < s.LocalThreadWriteLockCounter)

/-- Strengthened inductive invariant: `HoldInv` plus the bounds that
keep the modulo arithmetic exact. -/
def FullInv (s : ThreadState) (m : HoldMode) : Prop :=
  HoldInv s m ∧ s.LocalThreadReadLockCounter < usizeMod ∧
    s.LocalThreadWriteLockCounter < usizeMod

end RecursiveReadWriteMutex

namespace ReadWriteMutex

/-- Program counter of one thread inside the methods of
`ReadWriteMutex`.  The points follow the statements of the C++ source:

ReadLock:    idle -(WriteMutex.lock)-> rl2 -(ReadMutex.lock)-> rl3
             -(ReadCounter.fetch_add 1)-> rl4 -(ReadMutex.unlock)-> rl5
             -(WriteMutex.unlock)-> readHeld

ReadUnlock:  readHeld -(ReadMutex.lock)-> ru2
             -(ReadCounter.fetch_sub 1)-> ru3 -(ReadCounter.load)->
             ru4 when the loaded value is 0 else ru5; at ru4 the loop
             `while (IsCondVarWaiting.load()) Cv.notify_all()` either
             notifies and stays at ru4 or exits to ru5 when the flag is
             false; ru5 -(ReadMutex.unlock)-> idle

WriteLock:   idle -(WriteMutex.lock)-> wl2
             -(IsCondVarWaiting.store true)-> wl3 -(ReadCounter.load)->
             wl4a when the loaded value is positive else wl5; wl4a is
             the window in which the thread has decided to call
             `Cv.wait(lk)` but is not yet blocked on the condition
             variable; wl4b is blocked in `Cv.wait`; a `notify_all`
             moves every wl4b thread to wl5;
             wl5 -(IsCondVarWaiting.store false)-> writeHeld

WriteUnlock: writeHeld -(WriteMutex.unlock)-> idle -/
inductive PC
  | idle
  | rl2
  | rl3
  | rl4
  | rl5
  | readHeld
  | ru2
  | ru3
  | ru4
  | ru5
  | wl2
  | wl3
  | wl4a
  | wl4b
  | wl5
  | writeHeld
deriving DecidableEq, Repr, Fintype

/-- Program points at which the thread has executed the
`ReadCounter.fetch_add(1)` of `ReadLock` and not yet the
`ReadCounter.fetch_sub(1)` of `ReadUnlock`: the positions that
contribute one to `ReadCounter`. -/
def counted : PC → Bool
  | .rl4 | .rl5 | .readHeld | .ru2 => true
  | _ => false

/-- Program points at which the thread owns `WriteMutex`. -/
def wmHolds : PC → Bool
  | .rl2 | .rl3 | .rl4 | .rl5 => true
  | .wl2 | .wl3 | .wl4a | .wl4b | .wl5 | .writeHeld => true
  | _ => false

/-- Program points at which the thread owns `ReadMutex`. -/
def rmHolds : PC → Bool
  | .rl3 | .rl4 | .ru2 | .ru3 | .ru4 | .ru5 => true
  | _ => false

/-- Program points between `IsCondVarWaiting.store(true)` and
`IsCondVarWaiting.store(false)` in `WriteLock`. -/
def flagRegion : PC → Bool
  | .wl3 | .wl4a | .wl4b | .wl5 => true
  | _ => false

/-- Effect of `Cv.notify_all()` on one thread: a thread blocked in
`Cv.wait` resumes; every other thread is unaffected. -/
def wake : PC → PC
  | .wl4b => .wl5
  | p => p

/-- Global state of one `ReadWriteMutex` shared by finitely many
threads.  `threads` maps each thread index to its program counter; the
two `Option Nat` fields hold the index of the thread owning the
corresponding internal `std::mutex`, if any. -/
structure State where
  threads : List PC
  WriteMutex : Option Nat
  ReadMutex : Option Nat
  ReadCounter : Int
  IsCondVarWaiting : Bool
deriving DecidableEq, Repr

/-- Interleaving small-step semantics: one atomic action of one thread.
Locking a `std::mutex` is enabled only while no thread owns it (a
blocked thread simply has no enabled step); `Cv.notify_all` wakes
exactly the threads blocked in `Cv.wait` at that instant. -/
inductive Step : State → State → Prop
  | readLockW (s : State) (t : Nat) (hpc : s.threads[t]? = some .idle)
      (hw : s.WriteMutex = none) :
      Step s { s with threads := s.threads.set t .rl2, WriteMutex := some t }
  | readLockR (s : State) (t : Nat) (hpc : s.threads[t]? = some .rl2)
      (hr : s.ReadMutex = none) :
      Step s { s with threads := s.threads.set t .rl3, ReadMutex := some t }
  | readIncr (s : State) (t : Nat) (hpc : s.threads[t]? = some .rl3) :
      Step s { s with threads := s.threads.set t .rl4,
                      ReadCounter := s.ReadCounter + 1 }
  | readUnlockR (s : State) (t : Nat) (hpc : s.threads[t]? = some .rl4) :
      Step s { s with threads := s.threads.set t .rl5, ReadMutex := none }
  | readUnlockW (s : State) (t : Nat) (hpc : s.threads[t]? = some .rl5) :
      Step s { s with threads := s.threads.set t .readHeld, WriteMutex := none }
  | ruLockR (s : State) (t : Nat) (hpc : s.threads[t]? = some .readHeld)
      (hr : s.ReadMutex = none) :
      Step s { s with threads := s.threads.set t .ru2, ReadMutex := some t }
  | ruDecr (s : State) (t : Nat) (hpc : s.threads[t]? = some .ru2) :
      Step s { s with threads := s.threads.set t .ru3,
                      ReadCounter := s.ReadCounter - 1 }
  | ruCheckZero (s : State) (t : Nat) (hpc : s.threads[t]? = some .ru3)
      (hz : s.ReadCounter = 0) :
      Step s { s with threads := s.threads.set t .ru4 }
  | ruCheckPos (s : State) (t : Nat) (hpc : s.threads[t]? = some .ru3)
      (hz : ¬ s.ReadCounter = 0) :
      Step s { s with threads := s.threads.set t .ru5 }
  | ruNotify (s : State) (t : Nat) (hpc : s.threads[t]? = some .ru4)
      (hf : s.IsCondVarWaiting = true) :
      Step s { s with threads := s.threads.map wake }
  | ruLoopExit (s : State) (t : Nat) (hpc : s.threads[t]? = some .ru4)
      (hf : s.IsCondVarWaiting = false) :
      Step s { s with threads := s.threads.set t .ru5 }
  | ruUnlockR (s : State) (t : Nat) (hpc : s.threads[t]? = some .ru5) :
      Step s { s with threads := s.threads.set t .idle, ReadMutex := none }
  | writeLockW (s : State) (t : Nat) (hpc : s.threads[t]? = some .idle)
      (hw : s.WriteMutex = none) :
      Step s { s with threads := s.threads.set t .wl2, WriteMutex := some t }
  | writeSetFlag (s : State) (t : Nat) (hpc : s.threads[t]? = some .wl2) :
      Step s { s with threads := s.threads.set t .wl3, IsCondVarWaiting := true }
  | writeCheckPos (s : State) (t : Nat) (hpc : s.threads[t]? = some .wl3)
      (hc : 0 < s.ReadCounter) :
      Step s { s with threads := s.threads.set t .wl4a }
  | writeCheckZero (s : State) (t : Nat) (hpc : s.threads[t]? = some .wl3)
      (hc : ¬ 0 < s.ReadCounter) :
      Step s { s with threads := s.threads.set t .wl5 }
  | writeBlock (s : State) (t : Nat) (hpc : s.threads[t]? = some .wl4a) :
      Step s { s with threads := s.threads.set t .wl4b }
  | writeClearFlag (s : State) (t : Nat) (hpc : s.threads[t]? = some .wl5) :
      Step s { s with threads := s.threads.set t .writeHeld,
                      IsCondVarWaiting := false }
  | writeUnlockW (s : State) (t : Nat) (hpc : s.threads[t]? = some .writeHeld) :
      Step s { s with threads := s.threads.set t .idle, WriteMutex := none }

/-- State produced by the constructor of `ReadWriteMutex` with `n`
threads, none of which has called a method yet. -/
def start (n : Nat) : State :=
  { threads := List.replicate n .idle
    WriteMutex := none
    ReadMutex := none
    ReadCounter := 0
    IsCondVarWaiting := false }

/-- States reachable by interleaving the four methods over `n`
threads. -/
def Reachable (n : Nat) (s : State) : Prop :=
  Relation.ReflTransGen Step (start n) s

/-- Inductive invariant of the transition system. -/
structure Inv (s : State) : Prop where
  counter_eq : s.ReadCounter = (s.threads.countP counted : Int)
  wm_holder : ∀ (t : Nat) (pc : PC), s.threads[t]? = some pc → wmHolds pc = true →
    s.WriteMutex = some t
  wm_owner : ∀ (t : Nat), s.WriteMutex = some t →
    ∃ pc, s.threads[t]? = some pc ∧ wmHolds pc = true
  rm_holder : ∀ (t : Nat) (pc : PC), s.threads[t]? = some pc → rmHolds pc = true →
    s.ReadMutex = some t
  rm_owner : ∀ (t : Nat), s.ReadMutex = some t →
    ∃ pc, s.threads[t]? = some pc ∧ rmHolds pc = true
  flag_set : ∀ (t : Nat) (pc : PC), s.threads[t]? = some pc → flagRegion pc = true →
    s.IsCondVarWaiting = true
  writer_zero : ∀ (t : Nat) (pc : PC), s.threads[t]? = some pc →
    (pc = .wl5 ∨ pc = .writeHeld) → s.ReadCounter = 0
  loop_zero : ∀ (t : Nat) (pc : PC), s.threads[t]? = some pc → pc = .ru4 →
    s.ReadCounter = 0

end ReadWriteMutex

theorem get_set_self {α : Type} {l : List α} {t : Nat} (v : α) (h : t < l.length) :
    (l.set t v)[t]? = some v := by
  simp [List.getElem?_set_self, h]

theorem get_set_other {α : Type} {l : List α} {t u : Nat} (v : α) (h : t ≠ u) :
    (l.set t v)[u]? = l[u]? :=
  List.getElem?_set_ne h

theorem countP_set_aux {α : Type} (q : α → Bool) (l : List α) (t : Nat) (p v : α)
    (h : l[t]? = some p) :
    (l.set t v).countP q + (if q p then 1 else 0) =
      l.countP q + (if q v then 1 else 0) := by
  induction l generalizing t with
  | nil => simp at h
  | cons a l ih =>
      cases t with
      | zero =>
          simp only [List.getElem?_cons_zero, Option.some_inj] at h
          rw [← h]
          simp only [List.set_cons_zero, List.countP_cons]
          cases hqa : q a <;> cases hqv : q v <;> simp [hqa, hqv]
      | succ t =>
          simp only [List.getElem?_cons_succ] at h
          have := ih t h
          simp only [List.set_cons_succ, List.countP_cons]
          cases hqa : q a <;> cases hqp : q p <;> cases hqv : q v <;>
            simp [hqp, hqv] at this ⊢ <;> omega

theorem countP_set_congr {α : Type} (q : α → Bool) {l : List α} {t : Nat} {p : α}
    (v : α) (h : l[t]? = some p) (hq : q p = q v) :
    (l.set t v).countP q = l.countP q := by
  have := countP_set_aux q l t p v h
  rw [hq] at this
  omega

theorem countP_pos_of_get {α : Type} (q : α → Bool) {l : List α} {t : Nat} {p : α}
    (h : l[t]? = some p) (hq : q p = true) : 0 < l.countP q := by
  have hmem : p ∈ l := List.getElem?_mem h
  exact List.countP_pos_iff.mpr ⟨p, hmem, hq⟩

theorem forall_get_set {α : Type} {l : List α} {t : Nat} {v : α} {P : Nat → α → Prop}
    (ht : t < l.length) (hv : P t v)
    (hold : ∀ u pc, l[u]? = some pc → u ≠ t → P u pc) :
    ∀ u pc, (l.set t v)[u]? = some pc → P u pc := by
  intro u pc h
  by_cases hu : u = t
  · subst hu
    rw [get_set_self v ht] at h
    injection h with h
    exact h ▸ hv
  · rw [get_set_other v (fun he => hu he.symm)] at h
    exact hold u pc h hu

theorem owner_set {l : List ReadWriteMutex.PC} {t u : Nat}
    {vOld vNew : ReadWriteMutex.PC} {q : ReadWriteMutex.PC → Bool}
    (hpc : l[t]? = some vOld) (himp : q vOld = true → q vNew = true)
    (h : ∃ pc, l[u]? = some pc ∧ q pc = true) :
    ∃ pc, (l.set t vNew)[u]? = some pc ∧ q pc = true := by
  obtain ⟨pc, hget, hq⟩ := h
  by_cases hu : u = t
  · subst hu
    rw [hget] at hpc
    injection hpc with hpc
    have ht : u < l.length := (List.getElem?_eq_some.mp hget).1
    exact ⟨vNew, get_set_self _ ht, himp (hpc ▸ hq)⟩
  · exact ⟨pc, by rw [get_set_other vNew (fun he => hu he.symm)]; exact hget, hq⟩

namespace ReadWriteMutex

theorem counted_wake : ∀ p, counted (wake p) = counted p := by decide

theorem wmHolds_wake : ∀ p, wmHolds (wake p) = wmHolds p := by decide

theorem rmHolds_wake : ∀ p, rmHolds (wake p) = rmHolds p := by decide

theorem flagRegion_wake : ∀ p, flagRegion (wake p) = flagRegion p := by decide

theorem flagRegion_wmHolds : ∀ p, flagRegion p = true → wmHolds p = true := by decide

theorem countP_map_wake (l : List PC) :
    (l.map wake).countP counted = l.countP counted := by
  induction l with
  | nil => rfl
  | cons a l ih =>
      rw [List.map_cons, List.countP_cons, List.countP_cons, ih, counted_wake]

end ReadWriteMutex

namespace RecursiveReadWriteMutex

theorem usizeMod_eq : usizeMod = 18446744073709551616 := by norm_num [usizeMod]

theorem usizeInc_eq {x : Nat} (h : x + 1 < usizeMod) : usizeInc x = x + 1 := by
  rw [usizeInc, if_neg]
  omega

theorem usizeDec_eq {x : Nat} (h0 : 0 < x) : usizeDec x = x - 1 := by
  rw [usizeDec, if_neg]
  omega

/-- The case-split form of the increment agrees with `size_t` addition
modulo `2 ^ 64`. -/
theorem usizeInc_mod {x : Nat} (h : x < usizeMod) : usizeInc x = (x + 1) % usizeMod := by
  rw [usizeInc]
  by_cases h0 : x + 1 = usizeMod
  · rw [if_pos h0, h0, Nat.mod_self]
  · rw [if_neg h0, Nat.mod_eq_of_lt (by omega)]

/-- The case-split form of the decrement agrees with `size_t`
subtraction modulo `2 ^ 64`: it wraps to `2 ^ 64 - 1` at zero. -/
theorem usizeDec_mod {x : Nat} (h : x < usizeMod) :
    usizeDec x = (x + (usizeMod - 1)) % usizeMod := by
  rw [usizeDec]
  by_cases h0 : x = 0
  · rw [if_pos h0, h0]
    rw [Nat.zero_add, Nat.mod_eq_of_lt (by rw [usizeMod_eq]; omega)]
  · rw [if_neg h0]
    rw [usizeMod_eq] at h ⊢
    omega

theorem usizeInc_lt {x : Nat} (h : x < usizeMod) : usizeInc x < usizeMod := by
  rw [usizeInc]
  by_cases h0 : x + 1 = usizeMod
  · rw [if_pos h0]
    rw [usizeMod_eq]
    omega
  · rw [if_neg h0]
    omega

theorem usizeDec_lt {x : Nat} (h : x < usizeMod) : usizeDec x < usizeMod := by
  rw [usizeDec]
  by_cases h0 : x = 0
  · rw [if_pos h0]
    rw [usizeMod_eq]
    omega
  · rw [if_neg h0]
    omega

theorem usizeDec_zero : usizeDec 0 = usizeMod - 1 := by
  rw [usizeDec, if_pos rfl]

theorem usizeDec_one : usizeDec 1 = 0 := by
  rw [usizeDec, if_neg one_ne_zero]

theorem applyCalls_append (m : HoldMode) (c1 c2 : List BaseCall) :
    HoldMode.applyCalls m (c1 ++ c2) = HoldMode.applyCalls (HoldMode.applyCalls m c1) c2 :=
  List.foldl_append ..

/-- A balanced `ReadLock` preserves the strengthened invariant. -/
theorem fullInv_ReadLock {s : ThreadState} {m : HoldMode} (h : FullInv s m)
    (hb : opBalanced s .readLock = true) :
    FullInv (ReadLock s).1 (HoldMode.applyCalls m (ReadLock s).2) := by
  obtain ⟨⟨hsh, hex⟩, hrd, hwd⟩ := h
  rw [opBalanced, Bool.or_eq_true, decide_eq_true_eq, decide_eq_true_eq] at hb
  rw [ReadLock]
  by_cases hw : s.LocalThreadWriteLockCounter = 0
  · have hb' : s.LocalThreadReadLockCounter + 1 < usizeMod := by omega
    have hinc := usizeInc_eq hb'
    rw [if_pos hw]
    by_cases hr : s.LocalThreadReadLockCounter = 0
    · rw [if_pos hr]
      refine ⟨⟨?_, ?_⟩, ?_, ?_⟩
      · show HoldMode.shared = HoldMode.shared ↔ _
        rw [hinc]
        simp [hw]
      · show HoldMode.shared = HoldMode.exclusive ↔ _
        simp [hw]
      · exact usizeInc_lt hrd
      · exact hwd
    · have hm : m = HoldMode.shared := hsh.mpr ⟨by omega, hw⟩
      rw [if_neg hr]
      refine ⟨⟨?_, ?_⟩, ?_, ?_⟩
      · show m = HoldMode.shared ↔ _
        rw [hinc, hm]
        simp [hw]
      · show m = HoldMode.exclusive ↔ _
        rw [hm]
        simp [hw]
      · exact usizeInc_lt hrd
      · exact hwd
  · rw [if_neg hw]
    exact ⟨⟨hsh, hex⟩, hrd, hwd⟩

/-- A balanced `ReadUnlock` preserves the strengthened invariant. -/
theorem fullInv_ReadUnlock {s : ThreadState} {m : HoldMode} (h : FullInv s m)
    (hb : opBalanced s .readUnlock = true) :
    FullInv (ReadUnlock s).1 (HoldMode.applyCalls m (ReadUnlock s).2) := by
  obtain ⟨⟨hsh, hex⟩, hrd, hwd⟩ := h
  rw [opBalanced, Bool.or_eq_true, decide_eq_true_eq, decide_eq_true_eq] at hb
  rw [ReadUnlock]
  by_cases hw : s.LocalThreadWriteLockCounter = 0
  · have hr0 : 0 < s.LocalThreadReadLockCounter := by omega
    have hm : m = HoldMode.shared := hsh.mpr ⟨hr0, hw⟩
    have hdec := usizeDec_eq hr0
    rw [if_pos hw]
    by_cases hr : s.LocalThreadReadLockCounter = 1
    · rw [if_pos hr]
      refine ⟨⟨?_, ?_⟩, ?_, ?_⟩
      · show HoldMode.free = HoldMode.shared ↔ _
        rw [hdec, hr]
        simp
      · show HoldMode.free = HoldMode.exclusive ↔ _
        simp [hw]
      · exact usizeDec_lt hrd
      · exact hwd
    · rw [if_neg hr]
      refine ⟨⟨?_, ?_⟩, ?_, ?_⟩
      · show m = HoldMode.shared ↔ _
        rw [hdec, hm]
        simp [hw]
        omega
      · show m = HoldMode.exclusive ↔ _
        rw [hm]
        simp [hw]
      · exact usizeDec_lt hrd
      · exact hwd
  · rw [if_neg hw]
    exact ⟨⟨hsh, hex⟩, hrd, hwd⟩

/-- A balanced `WriteLock` preserves the strengthened invariant. -/
theorem fullInv_WriteLock {s : ThreadState} {m : HoldMode} (h : FullInv s m)
    (hb : opBalanced s .writeLock = true) :
    FullInv (WriteLock s).1 (HoldMode.applyCalls m (WriteLock s).2) := by
  obtain ⟨⟨hsh, hex⟩, hrd, hwd⟩ := h
  rw [opBalanced, decide_eq_true_eq] at hb
  have hinc := usizeInc_eq hb
  rw [WriteLock]
  by_cases hw : s.LocalThreadWriteLockCounter = 0
  · rw [if_pos hw]
    by_cases hr : 0 < s.LocalThreadReadLockCounter
    · rw [if_pos hr]
      refine ⟨⟨?_, ?_⟩, hrd, usizeInc_lt hwd⟩
      · show HoldMode.exclusive = HoldMode.shared ↔ _
        rw [hinc, hw]
        simp
      · show HoldMode.exclusive = HoldMode.exclusive ↔ _
        rw [hinc, hw]
        simp
    · rw [if_neg hr]
      refine ⟨⟨?_, ?_⟩, hrd, usizeInc_lt hwd⟩
      · show HoldMode.exclusive = HoldMode.shared ↔ _
        rw [hinc, hw]
        simp
      · show HoldMode.exclusive = HoldMode.exclusive ↔ _
        rw [hinc, hw]
        simp
  · have hm : m = HoldMode.exclusive := hex.mpr (by omega)
    rw [if_neg hw]
    refine ⟨⟨?_, ?_⟩, hrd, usizeInc_lt hwd⟩
    · show m = HoldMode.shared ↔ _
      rw [hinc, hm]
      simp
    · show m = HoldMode.exclusive ↔ _
      rw [hinc, hm]
      simp

/-- A balanced `WriteUnlock` preserves the strengthened invariant. -/
theorem fullInv_WriteUnlock {s : ThreadState} {m : HoldMode} (h : FullInv s m)
    (hb : opBalanced s .writeUnlock = true) :
    FullInv (WriteUnlock s).1 (HoldMode.applyCalls m (WriteUnlock s).2) := by
  obtain ⟨⟨hsh, hex⟩, hrd, hwd⟩ := h
  rw [opBalanced, decide_eq_true_eq] at hb
  have hdec := usizeDec_eq hb
  rw [WriteUnlock]
  by_cases hw : s.LocalThreadWriteLockCounter = 1
  · rw [if_pos hw]
    by_cases hr : 0 < s.LocalThreadReadLockCounter
    · rw [if_pos hr]
      refine ⟨⟨?_, ?_⟩, hrd, usizeDec_lt hwd⟩
      · show HoldMode.shared = HoldMode.shared ↔ _
        rw [hdec, hw]
        simp
        omega
      · show HoldMode.shared = HoldMode.exclusive ↔ _
        rw [hdec, hw]
        simp
    · rw [if_neg hr]
      refine ⟨⟨?_, ?_⟩, hrd, usizeDec_lt hwd⟩
      · show HoldMode.free = HoldMode.shared ↔ _
        rw [hdec, hw]
        simp
        omega
      · show HoldMode.free = HoldMode.exclusive ↔ _
        rw [hdec, hw]
        simp
  · have hm : m = HoldMode.exclusive := hex.mpr hb
    rw [if_neg hw]
    refine ⟨⟨?_, ?_⟩, hrd, usizeDec_lt hwd⟩
    · show m = HoldMode.shared ↔ _
      rw [hdec, hm]
      simp
      omega
    · show m = HoldMode.exclusive ↔ _
      rw [hdec, hm]
      simp
      omega

/-- One balanced operation preserves the strengthened invariant. -/
theorem fullInv_applyOp {s : ThreadState} {m : HoldMode} (h : FullInv s m)
    (op : Op) (hb : opBalanced s op = true) :
    FullInv (applyOp s op).1 (HoldMode.applyCalls m (applyOp s op).2) := by
  cases op with
  | readLock => exact fullInv_ReadLock h hb
  | readUnlock => exact fullInv_ReadUnlock h hb
  | writeLock => exact fullInv_WriteLock h hb
  | writeUnlock => exact fullInv_WriteUnlock h hb

/-- A balanced run preserves the strengthened invariant. -/
theorem fullInv_run {s : ThreadState} {m : HoldMode} (h : FullInv s m)
    (ops : List Op) (hb : balancedFrom s ops = true) :
    FullInv (run s ops).1 (HoldMode.applyCalls m (run s ops).2) := by
  induction ops generalizing s m with
  | nil => simpa [run, HoldMode.applyCalls]
  | cons op rest ih =>
      simp only [balancedFrom, Bool.and_eq_true] at hb
      have h1 := fullInv_applyOp h op hb.1
      have h2 := ih h1 hb.2
      simpa [run, applyCalls_append] using h2

theorem balancedFrom_append (s : ThreadState) (l1 l2 : List Op) :
    balancedFrom s (l1 ++ l2) =
      (balancedFrom s l1 && balancedFrom (run s l1).1 l2) := by
  induction l1 generalizing s with
  | nil => simp [balancedFrom, run]
  | cons op rest ih => simp [balancedFrom, run, ih, Bool.and_assoc]

theorem fullInv_clean : FullInv ThreadState.clean HoldMode.free := by
  refine ⟨⟨?_, ?_⟩, ?_, ?_⟩ <;> simp [ThreadState.clean, usizeMod_eq]

end RecursiveReadWriteMutex

namespace ReadWriteMutex

theorem countP_replicate_false {α : Type} (q : α → Bool) (a : α) (hq : q a = false)
    (n : Nat) : (List.replicate n a).countP q = 0 := by
  induction n with
  | zero => rfl
  | succ n ih => simp [List.replicate_succ, List.countP_cons, hq, ih]

theorem get_replicate {α : Type} {n t : Nat} {a p : α}
    (h : (List.replicate n a)[t]? = some p) : p = a := by
  rw [List.getElem?_replicate] at h
  by_cases hn : t < n
  · rw [if_pos hn] at h
    injection h with h
    exact h.symm
  · rw [if_neg hn] at h
    exact Option.noConfusion h

theorem inv_start (n : Nat) : Inv (start n) := by
  refine ⟨?_, ?_, ?_, ?_, ?_, ?_, ?_, ?_⟩
  · show (0 : Int) = ((List.replicate n PC.idle).countP counted : Int)
    rw [countP_replicate_false counted .idle rfl n]
    rfl
  · intro t pc hget hq
    rw [get_replicate hget] at hq
    exact absurd hq (by decide)
  · intro t h
    exact Option.noConfusion h
  · intro t pc hget hq
    rw [get_replicate hget] at hq
    exact absurd hq (by decide)
  · intro t h
    exact Option.noConfusion h
  · intro t pc hget hq
    rw [get_replicate hget] at hq
    exact absurd hq (by decide)
  · intro t pc hget hq
    rw [get_replicate hget] at hq
    rcases hq with h | h <;> exact absurd h (by decide)
  · intro t pc hget hq
    rw [get_replicate hget] at hq
    exact absurd hq (by decide)

/-- The invariant is preserved by every step. -/
theorem inv_step {s s' : State} (h : Inv s) (hs : Step s s') : Inv s' := by
  obtain ⟨hcnt, hwmh, hwmo, hrmh, hrmo, hflag, hwz, hlz⟩ := h
  cases hs with
  | readLockW t hpc hw =>
      have ht : t < s.threads.length := (List.getElem?_eq_some.mp hpc).1
      refine ⟨?_, ?_, ?_, ?_, ?_, ?_, ?_, ?_⟩
      · show s.ReadCounter = _
        rw [countP_set_congr counted .rl2 hpc rfl]
        exact hcnt
      · refine forall_get_set ht (fun _ => rfl) ?_
        intro u pc hget hu hq
        have h1 := hwmh u pc hget hq
        rw [hw] at h1
        exact Option.noConfusion h1
      · intro u h
        injection h with h
        subst h
        exact ⟨.rl2, get_set_self _ ht, rfl⟩
      · refine forall_get_set ht (fun hq => absurd hq (by decide)) ?_
        intro u pc hget hu hq
        exact hrmh u pc hget hq
      · intro u h
        exact owner_set hpc (by decide) (hrmo u h)
      · refine forall_get_set ht (fun hq => absurd hq (by decide)) ?_
        intro u pc hget hu hq
        exact hflag u pc hget hq
      · refine forall_get_set ht ?_ ?_
        · intro hq
          rcases hq with h | h <;> exact absurd h (by decide)
        · intro u pc hget hu hq
          exact hwz u pc hget hq
      · refine forall_get_set ht (fun hq => absurd hq (by decide)) ?_
        intro u pc hget hu hq
        exact hlz u pc hget hq
  | readLockR t hpc hr =>
      have ht : t < s.threads.length := (List.getElem?_eq_some.mp hpc).1
      refine ⟨?_, ?_, ?_, ?_, ?_, ?_, ?_, ?_⟩
      · show s.ReadCounter = _
        rw [countP_set_congr counted .rl3 hpc rfl]
        exact hcnt
      · refine forall_get_set ht (fun _ => hwmh t .rl2 hpc rfl) ?_
        intro u pc hget hu hq
        exact hwmh u pc hget hq
      · intro u h
        exact owner_set hpc (by decide) (hwmo u h)
      · refine forall_get_set ht (fun _ => rfl) ?_
        intro u pc hget hu hq
        have h1 := hrmh u pc hget hq
        rw [hr] at h1
        exact Option.noConfusion h1
      · intro u h
        injection h with h
        subst h
        exact ⟨.rl3, get_set_self _ ht, rfl⟩
      · refine forall_get_set ht (fun hq => absurd hq (by decide)) ?_
        intro u pc hget hu hq
        exact hflag u pc hget hq
      · refine forall_get_set ht ?_ ?_
        · intro hq
          rcases hq with h | h <;> exact absurd h (by decide)
        · intro u pc hget hu hq
          exact hwz u pc hget hq
      · refine forall_get_set ht (fun hq => absurd hq (by decide)) ?_
        intro u pc hget hu hq
        exact hlz u pc hget hq
  | readIncr t hpc =>
      have ht : t < s.threads.length := (List.getElem?_eq_some.mp hpc).1
      refine ⟨?_, ?_, ?_, ?_, ?_, ?_, ?_, ?_⟩
      · show s.ReadCounter + 1 = ((s.threads.set t .rl4).countP counted : Int)
        have haux := countP_set_aux counted s.threads t .rl3 .rl4 hpc
        simp only [counted] at haux
        simp at haux
        omega
      · refine forall_get_set ht (fun _ => hwmh t .rl3 hpc rfl) ?_
        intro u pc hget hu hq
        exact hwmh u pc hget hq
      · intro u h
        exact owner_set hpc (by decide) (hwmo u h)
      · refine forall_get_set ht (fun _ => hrmh t .rl3 hpc rfl) ?_
        intro u pc hget hu hq
        exact hrmh u pc hget hq
      · intro u h
        exact owner_set hpc (by decide) (hrmo u h)
      · refine forall_get_set ht (fun hq => absurd hq (by decide)) ?_
        intro u pc hget hu hq
        exact hflag u pc hget hq
      · refine forall_get_set ht ?_ ?_
        · intro hq
          rcases hq with h | h <;> exact absurd h (by decide)
        · intro u pc hget hu hq
          have hq' : wmHolds pc = true := by rcases hq with rfl | rfl <;> rfl
          have h1 := hwmh u pc hget hq'
          have h2 := hwmh t .rl3 hpc rfl
          rw [h1] at h2
          injection h2 with h2
          exact absurd h2 hu
      · refine forall_get_set ht (fun hq => absurd hq (by decide)) ?_
        intro u pc hget hu hq
        subst hq
        have h1 := hrmh u .ru4 hget rfl
        have h2 := hrmh t .rl3 hpc rfl
        rw [h1] at h2
        injection h2 with h2
        exact absurd h2 hu
  | readUnlockR t hpc =>
      have ht : t < s.threads.length := (List.getElem?_eq_some.mp hpc).1
      refine ⟨?_, ?_, ?_, ?_, ?_, ?_, ?_, ?_⟩
      · show s.ReadCounter = _
        rw [countP_set_congr counted .rl5 hpc rfl]
        exact hcnt
      · refine forall_get_set ht (fun _ => hwmh t .rl4 hpc rfl) ?_
        intro u pc hget hu hq
        exact hwmh u pc hget hq
      · intro u h
        exact owner_set hpc (by decide) (hwmo u h)
      · refine forall_get_set ht (fun hq => absurd hq (by decide)) ?_
        intro u pc hget hu hq
        have h1 := hrmh u pc hget hq
        have h2 := hrmh t .rl4 hpc rfl
        rw [h1] at h2
        injection h2 with h2
        exact absurd h2 hu
      · intro u h
        exact Option.noConfusion h
      · refine forall_get_set ht (fun hq => absurd hq (by decide)) ?_
        intro u pc hget hu hq
        exact hflag u pc hget hq
      · refine forall_get_set ht ?_ ?_
        · intro hq
          rcases hq with h | h <;> exact absurd h (by decide)
        · intro u pc hget hu hq
          exact hwz u pc hget hq
      · refine forall_get_set ht (fun hq => absurd hq (by decide)) ?_
        intro u pc hget hu hq
        exact hlz u pc hget hq
  | readUnlockW t hpc =>
      have ht : t < s.threads.length := (List.getElem?_eq_some.mp hpc).1
      refine ⟨?_, ?_, ?_, ?_, ?_, ?_, ?_, ?_⟩
      · show s.ReadCounter = _
        rw [countP_set_congr counted .readHeld hpc rfl]
        exact hcnt
      · refine forall_get_set ht (fun hq => absurd hq (by decide)) ?_
        intro u pc hget hu hq
        have h1 := hwmh u pc hget hq
        have h2 := hwmh t .rl5 hpc rfl
        rw [h1] at h2
        injection h2 with h2
        exact absurd h2 hu
      · intro u h
        exact Option.noConfusion h
      · refine forall_get_set ht (fun hq => absurd hq (by decide)) ?_
        intro u pc hget hu hq
        exact hrmh u pc hget hq
      · intro u h
        exact owner_set hpc (by decide) (hrmo u h)
      · refine forall_get_set ht (fun hq => absurd hq (by decide)) ?_
        intro u pc hget hu hq
        exact hflag u pc hget hq
      · refine forall_get_set ht ?_ ?_
        · intro hq
          rcases hq with h | h <;> exact absurd h (by decide)
        · intro u pc hget hu hq
          exact hwz u pc hget hq
      · refine forall_get_set ht (fun hq => absurd hq (by decide)) ?_
        intro u pc hget hu hq
        exact hlz u pc hget hq
  | ruLockR t hpc hr =>
      have ht : t < s.threads.length := (List.getElem?_eq_some.mp hpc).1
      refine ⟨?_, ?_, ?_, ?_, ?_, ?_, ?_, ?_⟩
      · show s.ReadCounter = _
        rw [countP_set_congr counted .ru2 hpc rfl]
        exact hcnt
      · refine forall_get_set ht (fun hq => absurd hq (by decide)) ?_
        intro u pc hget hu hq
        exact hwmh u pc hget hq
      · intro u h
        exact owner_set hpc (by decide) (hwmo u h)
      · refine forall_get_set ht (fun _ => rfl) ?_
        intro u pc hget hu hq
        have h1 := hrmh u pc hget hq
        rw [hr] at h1
        exact Option.noConfusion h1
      · intro u h
        injection h with h
        subst h
        exact ⟨.ru2, get_set_self _ ht, rfl⟩
      · refine forall_get_set ht (fun hq => absurd hq (by decide)) ?_
        intro u pc hget hu hq
        exact hflag u pc hget hq
      · refine forall_get_set ht ?_ ?_
        · intro hq
          rcases hq with h | h <;> exact absurd h (by decide)
        · intro u pc hget hu hq
          exact hwz u pc hget hq
      · refine forall_get_set ht (fun hq => absurd hq (by decide)) ?_
        intro u pc hget hu hq
        exact hlz u pc hget hq
  | ruDecr t hpc =>
      have ht : t < s.threads.length := (List.getElem?_eq_some.mp hpc).1
      refine ⟨?_, ?_, ?_, ?_, ?_, ?_, ?_, ?_⟩
      · show s.ReadCounter - 1 = ((s.threads.set t .ru3).countP counted : Int)
        have haux := countP_set_aux counted s.threads t .ru2 .ru3 hpc
        simp only [counted] at haux
        simp at haux
        omega
      · refine forall_get_set ht (fun hq => absurd hq (by decide)) ?_
        intro u pc hget hu hq
        exact hwmh u pc hget hq
      · intro u h
        exact owner_set hpc (by decide) (hwmo u h)
      · refine forall_get_set ht (fun _ => hrmh t .ru2 hpc rfl) ?_
        intro u pc hget hu hq
        exact hrmh u pc hget hq
      · intro u h
        exact owner_set hpc (by decide) (hrmo u h)
      · refine forall_get_set ht (fun hq => absurd hq (by decide)) ?_
        intro u pc hget hu hq
        exact hflag u pc hget hq
      · refine forall_get_set ht ?_ ?_
        · intro hq
          rcases hq with h | h <;> exact absurd h (by decide)
        · intro u pc hget hu hq
          exfalso
          have h0 := hwz u pc hget hq
          have h1 := countP_pos_of_get counted hpc rfl
          rw [hcnt] at h0
          omega
      · refine forall_get_set ht (fun hq => absurd hq (by decide)) ?_
        intro u pc hget hu hq
        subst hq
        have h1 := hrmh u .ru4 hget rfl
        have h2 := hrmh t .ru2 hpc rfl
        rw [h1] at h2
        injection h2 with h2
        exact absurd h2 hu
  | ruCheckZero t hpc hz =>
      have ht : t < s.threads.length := (List.getElem?_eq_some.mp hpc).1
      refine ⟨?_, ?_, ?_, ?_, ?_, ?_, ?_, ?_⟩
      · show s.ReadCounter = _
        rw [countP_set_congr counted .ru4 hpc rfl]
        exact hcnt
      · refine forall_get_set ht (fun hq => absurd hq (by decide)) ?_
        intro u pc hget hu hq
        exact hwmh u pc hget hq
      · intro u h
        exact owner_set hpc (by decide) (hwmo u h)
      · refine forall_get_set ht (fun _ => hrmh t .ru3 hpc rfl) ?_
        intro u pc hget hu hq
        exact hrmh u pc hget hq
      · intro u h
        exact owner_set hpc (by decide) (hrmo u h)
      · refine forall_get_set ht (fun hq => absurd hq (by decide)) ?_
        intro u pc hget hu hq
        exact hflag u pc hget hq
      · refine forall_get_set ht ?_ ?_
        · intro hq
          rcases hq with h | h <;> exact absurd h (by decide)
        · intro u pc hget hu hq
          exact hwz u pc hget hq
      · refine forall_get_set ht (fun _ => hz) ?_
        intro u pc hget hu hq
        exact hlz u pc hget hq
  | ruCheckPos t hpc hz =>
      have ht : t < s.threads.length := (List.getElem?_eq_some.mp hpc).1
      refine ⟨?_, ?_, ?_, ?_, ?_, ?_, ?_, ?_⟩
      · show s.ReadCounter = _
        rw [countP_set_congr counted .ru5 hpc rfl]
        exact hcnt
      · refine forall_get_set ht (fun hq => absurd hq (by decide)) ?_
        intro u pc hget hu hq
        exact hwmh u pc hget hq
      · intro u h
        exact owner_set hpc (by decide) (hwmo u h)
      · refine forall_get_set ht (fun _ => hrmh t .ru3 hpc rfl) ?_
        intro u pc hget hu hq
        exact hrmh u pc hget hq
      · intro u h
        exact owner_set hpc (by decide) (hrmo u h)
      · refine forall_get_set ht (fun hq => absurd hq (by decide)) ?_
        intro u pc hget hu hq
        exact hflag u pc hget hq
      · refine forall_get_set ht ?_ ?_
        · intro hq
          rcases hq with h | h <;> exact absurd h (by decide)
        · intro u pc hget hu hq
          exact hwz u pc hget hq
      · refine forall_get_set ht (fun hq => absurd hq (by decide)) ?_
        intro u pc hget hu hq
        exact hlz u pc hget hq
  | ruNotify t hpc hf =>
      refine ⟨?_, ?_, ?_, ?_, ?_, ?_, ?_, ?_⟩
      · show s.ReadCounter = _
        rw [countP_map_wake]
        exact hcnt
      · intro u pc hget hq
        rw [List.getElem?_map] at hget
        obtain ⟨p, hp, hwp⟩ := Option.map_eq_some'.mp hget
        subst hwp
        rw [wmHolds_wake] at hq
        exact hwmh u p hp hq
      · intro u h
        obtain ⟨p, hp, hq⟩ := hwmo u h
        refine ⟨wake p, ?_, by rw [wmHolds_wake]; exact hq⟩
        rw [List.getElem?_map, hp]
        rfl
      · intro u pc hget hq
        rw [List.getElem?_map] at hget
        obtain ⟨p, hp, hwp⟩ := Option.map_eq_some'.mp hget
        subst hwp
        rw [rmHolds_wake] at hq
        exact hrmh u p hp hq
      · intro u h
        obtain ⟨p, hp, hq⟩ := hrmo u h
        refine ⟨wake p, ?_, by rw [rmHolds_wake]; exact hq⟩
        rw [List.getElem?_map, hp]
        rfl
      · intro u pc hget hq
        rw [List.getElem?_map] at hget
        obtain ⟨p, hp, hwp⟩ := Option.map_eq_some'.mp hget
        subst hwp
        rw [flagRegion_wake] at hq
        exact hflag u p hp hq
      · intro u pc hget hq
        exact hlz t .ru4 hpc rfl
      · intro u pc hget hq
        exact hlz t .ru4 hpc rfl
  | ruLoopExit t hpc hf =>
      have ht : t < s.threads.length := (List.getElem?_eq_some.mp hpc).1
      refine ⟨?_, ?_, ?_, ?_, ?_, ?_, ?_, ?_⟩
      · show s.ReadCounter = _
        rw [countP_set_congr counted .ru5 hpc rfl]
        exact hcnt
      · refine forall_get_set ht (fun hq => absurd hq (by decide)) ?_
        intro u pc hget hu hq
        exact hwmh u pc hget hq
      · intro u h
        exact owner_set hpc (by decide) (hwmo u h)
      · refine forall_get_set ht (fun _ => hrmh t .ru4 hpc rfl) ?_
        intro u pc hget hu hq
        exact hrmh u pc hget hq
      · intro u h
        exact owner_set hpc (by decide) (hrmo u h)
      · refine forall_get_set ht (fun hq => absurd hq (by decide)) ?_
        intro u pc hget hu hq
        exact hflag u pc hget hq
      · refine forall_get_set ht ?_ ?_
        · intro hq
          rcases hq with h | h <;> exact absurd h (by decide)
        · intro u pc hget hu hq
          exact hwz u pc hget hq
      · refine forall_get_set ht (fun hq => absurd hq (by decide)) ?_
        intro u pc hget hu hq
        exact hlz u pc hget hq
  | ruUnlockR t hpc =>
      have ht : t < s.threads.length := (List.getElem?_eq_some.mp hpc).1
      refine ⟨?_, ?_, ?_, ?_, ?_, ?_, ?_, ?_⟩
      · show s.ReadCounter = _
        rw [countP_set_congr counted .idle hpc rfl]
        exact hcnt
      · refine forall_get_set ht (fun hq => absurd hq (by decide)) ?_
        intro u pc hget hu hq
        exact hwmh u pc hget hq
      · intro u h
        exact owner_set hpc (by decide) (hwmo u h)
      · refine forall_get_set ht (fun hq => absurd hq (by decide)) ?_
        intro u pc hget hu hq
        have h1 := hrmh u pc hget hq
        have h2 := hrmh t .ru5 hpc rfl
        rw [h1] at h2
        injection h2 with h2
        exact absurd h2 hu
      · intro u h
        exact Option.noConfusion h
      · refine forall_get_set ht (fun hq => absurd hq (by decide)) ?_
        intro u pc hget hu hq
        exact hflag u pc hget hq
      · refine forall_get_set ht ?_ ?_
        · intro hq
          rcases hq with h | h <;> exact absurd h (by decide)
        · intro u pc hget hu hq
          exact hwz u pc hget hq
      · refine forall_get_set ht (fun hq => absurd hq (by decide)) ?_
        intro u pc hget hu hq
        exact hlz u pc hget hq
  | writeLockW t hpc hw =>
      have ht : t < s.threads.length := (List.getElem?_eq_some.mp hpc).1
      refine ⟨?_, ?_, ?_, ?_, ?_, ?_, ?_, ?_⟩
      · show s.ReadCounter = _
        rw [countP_set_congr counted .wl2 hpc rfl]
        exact hcnt
      · refine forall_get_set ht (fun _ => rfl) ?_
        intro u pc hget hu hq
        have h1 := hwmh u pc hget hq
        rw [hw] at h1
        exact Option.noConfusion h1
      · intro u h
        injection h with h
        subst h
        exact ⟨.wl2, get_set_self _ ht, rfl⟩
      · refine forall_get_set ht (fun hq => absurd hq (by decide)) ?_
        intro u pc hget hu hq
        exact hrmh u pc hget hq
      · intro u h
        exact owner_set hpc (by decide) (hrmo u h)
      · refine forall_get_set ht (fun hq => absurd hq (by decide)) ?_
        intro u pc hget hu hq
        exact hflag u pc hget hq
      · refine forall_get_set ht ?_ ?_
        · intro hq
          rcases hq with h | h <;> exact absurd h (by decide)
        · intro u pc hget hu hq
          exact hwz u pc hget hq
      · refine forall_get_set ht (fun hq => absurd hq (by decide)) ?_
        intro u pc hget hu hq
        exact hlz u pc hget hq
  | writeSetFlag t hpc =>
      have ht : t < s.threads.length := (List.getElem?_eq_some.mp hpc).1
      refine ⟨?_, ?_, ?_, ?_, ?_, ?_, ?_, ?_⟩
      · show s.ReadCounter = _
        rw [countP_set_congr counted .wl3 hpc rfl]
        exact hcnt
      · refine forall_get_set ht (fun _ => hwmh t .wl2 hpc rfl) ?_
        intro u pc hget hu hq
        exact hwmh u pc hget hq
      · intro u h
        exact owner_set hpc (by decide) (hwmo u h)
      · refine forall_get_set ht (fun hq => absurd hq (by decide)) ?_
        intro u pc hget hu hq
        exact hrmh u pc hget hq
      · intro u h
        exact owner_set hpc (by decide) (hrmo u h)
      · refine forall_get_set ht (fun _ => rfl) ?_
        intro u pc hget hu hq
        rfl
      · refine forall_get_set ht ?_ ?_
        · intro hq
          rcases hq with h | h <;> exact absurd h (by decide)
        · intro u pc hget hu hq
          exact hwz u pc hget hq
      · refine forall_get_set ht (fun hq => absurd hq (by decide)) ?_
        intro u pc hget hu hq
        exact hlz u pc hget hq
  | writeCheckPos t hpc hc =>
      have ht : t < s.threads.length := (List.getElem?_eq_some.mp hpc).1
      refine ⟨?_, ?_, ?_, ?_, ?_, ?_, ?_, ?_⟩
      · show s.ReadCounter = _
        rw [countP_set_congr counted .wl4a hpc rfl]
        exact hcnt
      · refine forall_get_set ht (fun _ => hwmh t .wl3 hpc rfl) ?_
        intro u pc hget hu hq
        exact hwmh u pc hget hq
      · intro u h
        exact owner_set hpc (by decide) (hwmo u h)
      · refine forall_get_set ht (fun hq => absurd hq (by decide)) ?_
        intro u pc hget hu hq
        exact hrmh u pc hget hq
      · intro u h
        exact owner_set hpc (by decide) (hrmo u h)
      · refine forall_get_set ht (fun _ => hflag t .wl3 hpc rfl) ?_
        intro u pc hget hu hq
        exact hflag u pc hget hq
      · refine forall_get_set ht ?_ ?_
        · intro hq
          rcases hq with h | h <;> exact absurd h (by decide)
        · intro u pc hget hu hq
          exact hwz u pc hget hq
      · refine forall_get_set ht (fun hq => absurd hq (by decide)) ?_
        intro u pc hget hu hq
        exact hlz u pc hget hq
  | writeCheckZero t hpc hc =>
      have ht : t < s.threads.length := (List.getElem?_eq_some.mp hpc).1
      have hzero : s.ReadCounter = 0 := by
        have hnn : (0 : Int) ≤ (s.threads.countP counted : Int) := Int.ofNat_nonneg _
        omega
      refine ⟨?_, ?_, ?_, ?_, ?_, ?_, ?_, ?_⟩
      · show s.ReadCounter = _
        rw [countP_set_congr counted .wl5 hpc rfl]
        exact hcnt
      · refine forall_get_set ht (fun _ => hwmh t .wl3 hpc rfl) ?_
        intro u pc hget hu hq
        exact hwmh u pc hget hq
      · intro u h
        exact owner_set hpc (by decide) (hwmo u h)
      · refine forall_get_set ht (fun hq => absurd hq (by decide)) ?_
        intro u pc hget hu hq
        exact hrmh u pc hget hq
      · intro u h
        exact owner_set hpc (by decide) (hrmo u h)
      · refine forall_get_set ht (fun _ => hflag t .wl3 hpc rfl) ?_
        intro u pc hget hu hq
        exact hflag u pc hget hq
      · refine forall_get_set ht (fun _ => hzero) ?_
        intro u pc hget hu hq
        exact hwz u pc hget hq
      · refine forall_get_set ht (fun hq => absurd hq (by decide)) ?_
        intro u pc hget hu hq
        exact hlz u pc hget hq
  | writeBlock t hpc =>
      have ht : t < s.threads.length := (List.getElem?_eq_some.mp hpc).1
      refine ⟨?_, ?_, ?_, ?_, ?_, ?_, ?_, ?_⟩
      · show s.ReadCounter = _
        rw [countP_set_congr counted .wl4b hpc rfl]
        exact hcnt
      · refine forall_get_set ht (fun _ => hwmh t .wl4a hpc rfl) ?_
        intro u pc hget hu hq
        exact hwmh u pc hget hq
      · intro u h
        exact owner_set hpc (by decide) (hwmo u h)
      · refine forall_get_set ht (fun hq => absurd hq (by decide)) ?_
        intro u pc hget hu hq
        exact hrmh u pc hget hq
      · intro u h
        exact owner_set hpc (by decide) (hrmo u h)
      · refine forall_get_set ht (fun _ => hflag t .wl4a hpc rfl) ?_
        intro u pc hget hu hq
        exact hflag u pc hget hq
      · refine forall_get_set ht ?_ ?_
        · intro hq
          rcases hq with h | h <;> exact absurd h (by decide)
        · intro u pc hget hu hq
          exact hwz u pc hget hq
      · refine forall_get_set ht (fun hq => absurd hq (by decide)) ?_
        intro u pc hget hu hq
        exact hlz u pc hget hq
  | writeClearFlag t hpc =>
      have ht : t < s.threads.length := (List.getElem?_eq_some.mp hpc).1
      refine ⟨?_, ?_, ?_, ?_, ?_, ?_, ?_, ?_⟩
      · show s.ReadCounter = _
        rw [countP_set_congr counted .writeHeld hpc rfl]
        exact hcnt
      · refine forall_get_set ht (fun _ => hwmh t .wl5 hpc rfl) ?_
        intro u pc hget hu hq
        exact hwmh u pc hget hq
      · intro u h
        exact owner_set hpc (by decide) (hwmo u h)
      · refine forall_get_set ht (fun hq => absurd hq (by decide)) ?_
        intro u pc hget hu hq
        exact hrmh u pc hget hq
      · intro u h
        exact owner_set hpc (by decide) (hrmo u h)
      · refine forall_get_set ht (fun hq => absurd hq (by decide)) ?_
        intro u pc hget hu hq
        have h1 := hwmh u pc hget (flagRegion_wmHolds pc hq)
        have h2 := hwmh t .wl5 hpc rfl
        rw [h1] at h2
        injection h2 with h2
        exact absurd h2 hu
      · refine forall_get_set ht (fun _ => hwz t .wl5 hpc (Or.inl rfl)) ?_
        intro u pc hget hu hq
        exact hwz u pc hget hq
      · refine forall_get_set ht (fun hq => absurd hq (by decide)) ?_
        intro u pc hget hu hq
        exact hlz u pc hget hq
  | writeUnlockW t hpc =>
      have ht : t < s.threads.length := (List.getElem?_eq_some.mp hpc).1
      refine ⟨?_, ?_, ?_, ?_, ?_, ?_, ?_, ?_⟩
      · show s.ReadCounter = _
        rw [countP_set_congr counted .idle hpc rfl]
        exact hcnt
      · refine forall_get_set ht (fun hq => absurd hq (by decide)) ?_
        intro u pc hget hu hq
        have h1 := hwmh u pc hget hq
        have h2 := hwmh t .writeHeld hpc rfl
        rw [h1] at h2
        injection h2 with h2
        exact absurd h2 hu
      · intro u h
        exact Option.noConfusion h
      · refine forall_get_set ht (fun hq => absurd hq (by decide)) ?_
        intro u pc hget hu hq
        exact hrmh u pc hget hq
      · intro u h
        exact owner_set hpc (by decide) (hrmo u h)
      · refine forall_get_set ht (fun hq => absurd hq (by decide)) ?_
        intro u pc hget hu hq
        exact hflag u pc hget hq
      · refine forall_get_set ht ?_ ?_
        · intro hq
          rcases hq with h | h <;> exact absurd h (by decide)
        · intro u pc hget hu hq
          exact hwz u pc hget hq
      · refine forall_get_set ht (fun hq => absurd hq (by decide)) ?_
        intro u pc hget hu hq
        exact hlz u pc hget hq

/-- Every reachable state satisfies the invariant. -/
theorem reachable_inv {n : Nat} {s : State} (h : Reachable n s) : Inv s := by
  induction h with
  | refl => exact inv_start n
  | tail _ hstep ih => exact inv_step ih hstep

end ReadWriteMutex

namespace RecursiveReadWriteMutex

theorem run_append (s : ThreadState) (l1 l2 : List Op) :
    run s (l1 ++ l2) =
      ((run (run s l1).1 l2).1, (run s l1).2 ++ (run (run s l1).1 l2).2) := by
  induction l1 generalizing s with
  | nil => simp [run]
  | cons op rest ih => simp [run, ih, List.append_assoc]

/-- Nested `ReadLock` calls beyond the first forward nothing. -/
theorem run_replicate_ReadLock (k : Nat) : ∀ (j : Nat), 0 < j → j + k < usizeMod →
    run ⟨j, 0⟩ (List.replicate k .readLock) = (⟨j + k, 0⟩, []) := by
  induction k with
  | zero => intro j hj hk; simp [run]
  | succ k ih =>
      intro j hj hk
      rw [List.replicate_succ, run]
      have h1 : applyOp ⟨j, 0⟩ Op.readLock = (⟨j + 1, 0⟩, []) := by
        show ReadLock ⟨j, 0⟩ = _
        rw [ReadLock]
        simp only
        rw [if_pos trivial, if_neg (by omega : ¬ j = 0), @usizeInc_eq j (by omega)]
      rw [h1, ih (j + 1) (by omega) (by omega)]
      simp [show j + 1 + k = j + (k + 1) from by omega]

/-- Nested `ReadUnlock` calls forward only the last one. -/
theorem run_replicate_ReadUnlock (k : Nat) : 0 < k → k < usizeMod →
    run ⟨k, 0⟩ (List.replicate k .readUnlock) = (ThreadState.clean, [.readUnlock]) := by
  induction k with
  | zero => intro hk _; omega
  | succ k ih =>
      intro _ hW
      rw [List.replicate_succ, run]
      by_cases hk0 : k = 0
      · subst hk0
        have h1 : applyOp ⟨1, 0⟩ Op.readUnlock = (ThreadState.clean, [.readUnlock]) := by
          show ReadUnlock ⟨1, 0⟩ = _
          rw [ReadUnlock]
          simp only
          rw [if_pos trivial, if_pos trivial, usizeDec_one]
          rfl
        rw [h1]
        simp [run]
      · have h1 : applyOp ⟨k + 1, 0⟩ Op.readUnlock = (⟨k, 0⟩, []) := by
          show ReadUnlock ⟨k + 1, 0⟩ = _
          rw [ReadUnlock]
          simp only
          rw [if_pos trivial, if_neg (by omega : ¬ k + 1 = 1),
            @usizeDec_eq (k + 1) (by omega)]
          simp
        rw [h1, ih (by omega) (by omega)]
        rfl

/-- Nested `WriteLock` calls beyond the first forward nothing. -/
theorem run_replicate_WriteLock (k : Nat) : ∀ (j : Nat), 0 < j → j + k < usizeMod →
    run ⟨0, j⟩ (List.replicate k .writeLock) = (⟨0, j + k⟩, []) := by
  induction k with
  | zero => intro j hj hk; simp [run]
  | succ k ih =>
      intro j hj hk
      rw [List.replicate_succ, run]
      have h1 : applyOp ⟨0, j⟩ Op.writeLock = (⟨0, j + 1⟩, []) := by
        show WriteLock ⟨0, j⟩ = _
        rw [WriteLock]
        simp only
        rw [if_neg (by omega : ¬ j = 0), @usizeInc_eq j (by omega)]
      rw [h1, ih (j + 1) (by omega) (by omega)]
      simp [show j + 1 + k = j + (k + 1) from by omega]

/-- Nested `WriteUnlock` calls forward only the last one. -/
theorem run_replicate_WriteUnlock (k : Nat) : 0 < k → k < usizeMod →
    run ⟨0, k⟩ (List.replicate k .writeUnlock) = (ThreadState.clean, [.writeUnlock]) := by
  induction k with
  | zero => intro hk _; omega
  | succ k ih =>
      intro _ hW
      rw [List.replicate_succ, run]
      by_cases hk0 : k = 0
      · subst hk0
        have h1 : applyOp ⟨0, 1⟩ Op.writeUnlock = (ThreadState.clean, [.writeUnlock]) := by
          show WriteUnlock ⟨0, 1⟩ = _
          rw [WriteUnlock]
          simp only
          rw [if_pos trivial, usizeDec_one]
          rfl
        rw [h1]
        simp [run]
      · have h1 : applyOp ⟨0, k + 1⟩ Op.writeUnlock = (⟨0, k⟩, []) := by
          show WriteUnlock ⟨0, k + 1⟩ = _
          rw [WriteUnlock]
          simp only
          rw [if_neg (by omega : ¬ k + 1 = 1),
            @usizeDec_eq (k + 1) (by omega)]
          simp
        rw [h1, ih (by omega) (by omega)]
        rfl

end RecursiveReadWriteMutex

namespace RecursiveReadWriteMutex

/-- C2: for every thread using one `RecursiveReadWriteMutex` and every
balanced sequence of the four operations executed by that thread from
the clean state, after each operation (that is, after every front
segment of the sequence) the invariant holds: the underlying
`ReadWriteMutex` is held in shared mode by the thread iff
`read_depth > 0` and `write_depth == 0`, and in exclusive mode iff
`write_depth > 0`. -/
theorem hold_invariant (ops1 ops2 : List Op)
    (h : balancedFrom ThreadState.clean (ops1 ++ ops2) = true) :
    HoldInv (run ThreadState.clean ops1).1
      (HoldMode.applyCalls HoldMode.free (run ThreadState.clean ops1).2) := by
  have h1 : balancedFrom ThreadState.clean ops1 = true := by
    rw [balancedFrom_append, Bool.and_eq_true] at h
    exact h.1
  exact (fullInv_run fullInv_clean ops1 h1).1

/-- Witness for C2 at the upgrade/downgrade scenario of the demo:
after ReadLock then WriteLock the thread is at read depth 1, write
depth 1, and holds the underlying lock exclusively. -/
theorem hold_invariant_witness :
    balancedFrom ThreadState.clean
      ([Op.readLock, Op.writeLock] ++ [Op.writeUnlock, Op.readUnlock]) = true ∧
    HoldInv (run ThreadState.clean [Op.readLock, Op.writeLock]).1
      (HoldMode.applyCalls HoldMode.free
        (run ThreadState.clean [Op.readLock, Op.writeLock]).2) :=
  ⟨by decide, hold_invariant [Op.readLock, Op.writeLock]
    [Op.writeUnlock, Op.readUnlock] (by decide)⟩

/-- C3: a `WriteLock` call with `write_depth == 0` and `read_depth > 0`
forwards underlying `ReadUnlock` before underlying `WriteLock` (a
non-atomic upgrade: after the first forwarded call the thread holds
neither mode); every `WriteLock` call increments `write_depth` by
exactly one (as a `size_t`), and a nested call with `write_depth > 0`
forwards nothing. -/
theorem WriteLock_upgrade (s : ThreadState) :
    (s.LocalThreadWriteLockCounter = 0 → 0 < s.LocalThreadReadLockCounter →
      (WriteLock s).2 = [BaseCall.readUnlock, BaseCall.writeLock] ∧
      HoldMode.applyCalls HoldMode.shared (List.take 1 (WriteLock s).2) =
        HoldMode.free ∧
      HoldMode.applyCalls HoldMode.shared (WriteLock s).2 =
        HoldMode.exclusive) ∧
    (WriteLock s).1.LocalThreadWriteLockCounter =
      usizeInc s.LocalThreadWriteLockCounter ∧
    (s.LocalThreadWriteLockCounter + 1 < usizeMod →
      (WriteLock s).1.LocalThreadWriteLockCounter =
        s.LocalThreadWriteLockCounter + 1) ∧
    (0 < s.LocalThreadWriteLockCounter → (WriteLock s).2 = []) ∧
    (WriteLock s).1.LocalThreadReadLockCounter =
      s.LocalThreadReadLockCounter := by
  refine ⟨?_, rfl, ?_, ?_, rfl⟩
  · intro hw hr
    have hc : (WriteLock s).2 = [BaseCall.readUnlock, BaseCall.writeLock] := by
      show (if s.LocalThreadWriteLockCounter = 0 then
        (if s.LocalThreadReadLockCounter > 0 then [BaseCall.readUnlock] else []) ++
          [BaseCall.writeLock] else []) = _
      rw [if_pos hw, if_pos hr]
      rfl
    rw [hc]
    exact ⟨rfl, rfl, rfl⟩
  · intro hb
    exact usizeInc_eq hb
  · intro hw0
    show (if s.LocalThreadWriteLockCounter = 0 then
      (if s.LocalThreadReadLockCounter > 0 then [BaseCall.readUnlock] else []) ++
        [BaseCall.writeLock] else []) = []
    rw [if_neg (by omega)]

/-- Witness for C3 at read depth 1, write depth 0: the upgrade path. -/
theorem WriteLock_upgrade_witness :
    ((⟨1, 0⟩ : ThreadState).LocalThreadWriteLockCounter = 0 →
      0 < (⟨1, 0⟩ : ThreadState).LocalThreadReadLockCounter →
      (WriteLock ⟨1, 0⟩).2 = [BaseCall.readUnlock, BaseCall.writeLock] ∧
      HoldMode.applyCalls HoldMode.shared (List.take 1 (WriteLock ⟨1, 0⟩).2) =
        HoldMode.free ∧
      HoldMode.applyCalls HoldMode.shared (WriteLock ⟨1, 0⟩).2 =
        HoldMode.exclusive) ∧
    (WriteLock ⟨1, 0⟩).1.LocalThreadWriteLockCounter =
      usizeInc (⟨1, 0⟩ : ThreadState).LocalThreadWriteLockCounter ∧
    ((⟨1, 0⟩ : ThreadState).LocalThreadWriteLockCounter + 1 < usizeMod →
      (WriteLock ⟨1, 0⟩).1.LocalThreadWriteLockCounter =
        (⟨1, 0⟩ : ThreadState).LocalThreadWriteLockCounter + 1) ∧
    (0 < (⟨1, 0⟩ : ThreadState).LocalThreadWriteLockCounter →
      (WriteLock ⟨1, 0⟩).2 = []) ∧
    (WriteLock ⟨1, 0⟩).1.LocalThreadReadLockCounter =
      (⟨1, 0⟩ : ThreadState).LocalThreadReadLockCounter :=
  WriteLock_upgrade ⟨1, 0⟩

/-- C4: a `WriteUnlock` call that takes `write_depth` from 1 to 0
forwards underlying `WriteUnlock` and then, if `read_depth > 0`,
underlying `ReadLock`, so the thread ends holding shared access again
rather than none; every call decrements `write_depth` by exactly one
(as a `size_t`), and a call leaving `write_depth > 0` forwards
nothing. -/
theorem WriteUnlock_downgrade (s : ThreadState) :
    (s.LocalThreadWriteLockCounter = 1 →
      (WriteUnlock s).2 = BaseCall.writeUnlock ::
        (if 0 < s.LocalThreadReadLockCounter then [BaseCall.readLock] else []) ∧
      (0 < s.LocalThreadReadLockCounter →
        (WriteUnlock s).2 = [BaseCall.writeUnlock, BaseCall.readLock] ∧
        HoldMode.applyCalls HoldMode.exclusive (WriteUnlock s).2 =
          HoldMode.shared)) ∧
    (WriteUnlock s).1.LocalThreadWriteLockCounter =
      usizeDec s.LocalThreadWriteLockCounter ∧
    (0 < s.LocalThreadWriteLockCounter →
      (WriteUnlock s).1.LocalThreadWriteLockCounter =
        s.LocalThreadWriteLockCounter - 1) ∧
    (1 < s.LocalThreadWriteLockCounter →
      (WriteUnlock s).2 = [] ∧
      0 < (WriteUnlock s).1.LocalThreadWriteLockCounter) ∧
    (WriteUnlock s).1.LocalThreadReadLockCounter =
      s.LocalThreadReadLockCounter := by
  have hcalls : (WriteUnlock s).2 = (if s.LocalThreadWriteLockCounter = 1 then
      BaseCall.writeUnlock ::
        (if s.LocalThreadReadLockCounter > 0 then [BaseCall.readLock] else [])
      else []) := rfl
  refine ⟨?_, rfl, ?_, ?_, rfl⟩
  · intro hw
    rw [hcalls, if_pos hw]
    refine ⟨rfl, ?_⟩
    intro hr
    rw [if_pos hr]
    exact ⟨rfl, rfl⟩
  · intro h0
    show usizeDec s.LocalThreadWriteLockCounter = _
    rw [usizeDec, if_neg (by omega)]
  · intro h1
    constructor
    · rw [hcalls, if_neg (by omega)]
    · show 0 < usizeDec s.LocalThreadWriteLockCounter
      rw [usizeDec, if_neg (by omega)]
      omega

/-- Witness for C4 at read depth 1, write depth 1: the downgrade path
restores the shared hold. -/
theorem WriteUnlock_downgrade_witness :
    ((⟨1, 1⟩ : ThreadState).LocalThreadWriteLockCounter = 1 →
      (WriteUnlock ⟨1, 1⟩).2 = BaseCall.writeUnlock ::
        (if 0 < (⟨1, 1⟩ : ThreadState).LocalThreadReadLockCounter then
          [BaseCall.readLock] else []) ∧
      (0 < (⟨1, 1⟩ : ThreadState).LocalThreadReadLockCounter →
        (WriteUnlock ⟨1, 1⟩).2 = [BaseCall.writeUnlock, BaseCall.readLock] ∧
        HoldMode.applyCalls HoldMode.exclusive (WriteUnlock ⟨1, 1⟩).2 =
          HoldMode.shared)) ∧
    (WriteUnlock ⟨1, 1⟩).1.LocalThreadWriteLockCounter =
      usizeDec (⟨1, 1⟩ : ThreadState).LocalThreadWriteLockCounter ∧
    (0 < (⟨1, 1⟩ : ThreadState).LocalThreadWriteLockCounter →
      (WriteUnlock ⟨1, 1⟩).1.LocalThreadWriteLockCounter =
        (⟨1, 1⟩ : ThreadState).LocalThreadWriteLockCounter - 1) ∧
    (1 < (⟨1, 1⟩ : ThreadState).LocalThreadWriteLockCounter →
      (WriteUnlock ⟨1, 1⟩).2 = [] ∧
      0 < (WriteUnlock ⟨1, 1⟩).1.LocalThreadWriteLockCounter) ∧
    (WriteUnlock ⟨1, 1⟩).1.LocalThreadReadLockCounter =
      (⟨1, 1⟩ : ThreadState).LocalThreadReadLockCounter :=
  WriteUnlock_downgrade ⟨1, 1⟩

end RecursiveReadWriteMutex

namespace RecursiveReadWriteMutex

/-- C7: for every `size_t`-representable `n ≥ 1`, a thread starting at
depth 0 that performs `n` nested `ReadLock` calls followed by `n`
`ReadUnlock` calls forwards exactly one underlying `ReadLock` (on the
first lock) and one underlying `ReadUnlock` (on the last unlock), and
its final state and whole forwarded-call trace coincide with those of
a single `ReadLock`/`ReadUnlock` pair; likewise `n` nested `WriteLock`
calls followed by `n` `WriteUnlock` calls produce exactly one
underlying `WriteLock`/`WriteUnlock` pair. -/
theorem reentrancy_idempotent (n : Nat) (h1 : 1 ≤ n) (h2 : n < usizeMod) :
    run ThreadState.clean
        (List.replicate n Op.readLock ++ List.replicate n Op.readUnlock) =
      run ThreadState.clean [Op.readLock, Op.readUnlock] ∧
    run ThreadState.clean
        (List.replicate n Op.writeLock ++ List.replicate n Op.writeUnlock) =
      run ThreadState.clean [Op.writeLock, Op.writeUnlock] ∧
    run ThreadState.clean [Op.readLock, Op.readUnlock] =
      (ThreadState.clean, [BaseCall.readLock, BaseCall.readUnlock]) ∧
    run ThreadState.clean [Op.writeLock, Op.writeUnlock] =
      (ThreadState.clean, [BaseCall.writeLock, BaseCall.writeUnlock]) := by
  obtain ⟨m, rfl⟩ : ∃ m, n = m + 1 := ⟨n - 1, by omega⟩
  have hr : run ThreadState.clean (List.replicate (m + 1) Op.readLock) =
      (⟨m + 1, 0⟩, [BaseCall.readLock]) := by
    rw [List.replicate_succ, run]
    have h1 : applyOp ThreadState.clean Op.readLock = (⟨1, 0⟩, [.readLock]) := by
      decide
    rw [h1, run_replicate_ReadLock m 1 (by omega) (by omega)]
    simp [show 1 + m = m + 1 from by omega]
  have hw : run ThreadState.clean (List.replicate (m + 1) Op.writeLock) =
      (⟨0, m + 1⟩, [BaseCall.writeLock]) := by
    rw [List.replicate_succ, run]
    have h1 : applyOp ThreadState.clean Op.writeLock = (⟨0, 1⟩, [.writeLock]) := by
      decide
    rw [h1, run_replicate_WriteLock m 1 (by omega) (by omega)]
    simp [show 1 + m = m + 1 from by omega]
  refine ⟨?_, ?_, by decide, by decide⟩
  · rw [run_append, hr, run_replicate_ReadUnlock (m + 1) (by omega) h2]
    rfl
  · rw [run_append, hw, run_replicate_WriteUnlock (m + 1) (by omega) h2]
    rfl

/-- Witness for C7 with a nesting depth of 3. -/
theorem reentrancy_idempotent_witness :
    (1 ≤ 3 ∧ 3 < usizeMod) ∧
    (run ThreadState.clean
        (List.replicate 3 Op.readLock ++ List.replicate 3 Op.readUnlock) =
      run ThreadState.clean [Op.readLock, Op.readUnlock] ∧
    run ThreadState.clean
        (List.replicate 3 Op.writeLock ++ List.replicate 3 Op.writeUnlock) =
      run ThreadState.clean [Op.writeLock, Op.writeUnlock] ∧
    run ThreadState.clean [Op.readLock, Op.readUnlock] =
      (ThreadState.clean, [BaseCall.readLock, BaseCall.readUnlock]) ∧
    run ThreadState.clean [Op.writeLock, Op.writeUnlock] =
      (ThreadState.clean, [BaseCall.writeLock, BaseCall.writeUnlock])) :=
  ⟨⟨by omega, by rw [usizeMod_eq]; omega⟩,
   reentrancy_idempotent 3 (by omega) (by rw [usizeMod_eq]; omega)⟩

/-- C8: for a thread with `write_depth > 0`, `ReadLock` and
`ReadUnlock` of `RecursiveReadWriteMutex` are no-ops: they forward no
call to the underlying `ReadWriteMutex`, leave both thread-local depth
counters unchanged, and leave the mode the thread holds on the
underlying lock unchanged. -/
theorem ReadLock_noop_in_write (s : ThreadState) (m : HoldMode)
    (h : 0 < s.LocalThreadWriteLockCounter) :
    ReadLock s = (s, []) ∧ ReadUnlock s = (s, []) ∧
    HoldMode.applyCalls m (ReadLock s).2 = m ∧
    HoldMode.applyCalls m (ReadUnlock s).2 = m := by
  have hw : ¬ s.LocalThreadWriteLockCounter = 0 := by omega
  have h1 : ReadLock s = (s, []) := by rw [ReadLock, if_neg hw]
  have h2 : ReadUnlock s = (s, []) := by rw [ReadUnlock, if_neg hw]
  refine ⟨h1, h2, ?_, ?_⟩
  · rw [h1]
    rfl
  · rw [h2]
    rfl

/-- Witness for C8 inside a write section of depth 1. -/
theorem ReadLock_noop_in_write_witness :
    0 < (⟨0, 1⟩ : ThreadState).LocalThreadWriteLockCounter ∧
    (ReadLock ⟨0, 1⟩ = (⟨0, 1⟩, []) ∧ ReadUnlock ⟨0, 1⟩ = (⟨0, 1⟩, []) ∧
     HoldMode.applyCalls HoldMode.exclusive (ReadLock ⟨0, 1⟩).2 =
       HoldMode.exclusive ∧
     HoldMode.applyCalls HoldMode.exclusive (ReadUnlock ⟨0, 1⟩).2 =
       HoldMode.exclusive) :=
  ⟨by decide, ReadLock_noop_in_write ⟨0, 1⟩ HoldMode.exclusive (by decide)⟩

/-- C9 counterexample: the code does not fail fast on an unlock without
a matching lock.  From the clean state, `ReadUnlock` returns normally
with `read_depth` wrapped to `2 ^ 64 - 1`, and `WriteUnlock` returns
normally with `write_depth` wrapped to `2 ^ 64 - 1`: silent
continuation with corrupted counters, not an abort or a named
violation (the source has no assertion, exception or trap on this
path). -/
theorem unlock_no_failfast_counterexample :
    ReadUnlock ThreadState.clean =
      (⟨usizeMod - 1, 0⟩, []) ∧
    WriteUnlock ThreadState.clean =
      (⟨0, usizeMod - 1⟩, []) := by
  constructor
  · rw [ReadUnlock]
    rfl
  · rw [WriteUnlock]
    rfl

/-- C9 amended: misuse is not detected.  Calling `ReadUnlock` with both
depths zero, or `WriteUnlock` with `write_depth` zero, raises no error:
the operation returns normally, forwards no underlying call, and wraps
the depth to `2 ^ 64 - 1` (the depths are unsigned, so they saturate
around rather than going negative). -/
theorem unmatched_unlock_wraps (s : ThreadState)
    (h1 : s.LocalThreadReadLockCounter = 0)
    (h2 : s.LocalThreadWriteLockCounter = 0) :
    ReadUnlock s = ({ s with LocalThreadReadLockCounter := usizeMod - 1 }, []) ∧
    WriteUnlock s = ({ s with LocalThreadWriteLockCounter := usizeMod - 1 }, []) := by
  constructor
  · rw [ReadUnlock, if_pos h2, h1, usizeDec_zero]
    rw [if_neg (by omega : ¬ (0 : Nat) = 1)]
  · rw [WriteUnlock, h2, usizeDec_zero]
    rw [if_neg (by omega : ¬ (0 : Nat) = 1)]

/-- Witness for the amended C9 at the clean state. -/
theorem unmatched_unlock_wraps_witness :
    ThreadState.clean.LocalThreadReadLockCounter = 0 ∧
    ThreadState.clean.LocalThreadWriteLockCounter = 0 ∧
    (ReadUnlock ThreadState.clean =
      ({ ThreadState.clean with LocalThreadReadLockCounter := usizeMod - 1 }, []) ∧
     WriteUnlock ThreadState.clean =
      ({ ThreadState.clean with LocalThreadWriteLockCounter := usizeMod - 1 }, [])) :=
  ⟨rfl, rfl, unmatched_unlock_wraps ThreadState.clean rfl rfl⟩

/-- C10: the depths are unsigned `std::size_t`, so `ReadUnlock` at both
depths zero wraps `read_depth` to `2 ^ 64 - 1` and `WriteUnlock` at
write depth zero wraps `write_depth` likewise; in particular, because
`ReadLock` inside a write section records no nesting, the sequence
WriteLock, ReadLock, WriteUnlock, ReadUnlock run by one thread from the
clean state ends with `read_depth = 2 ^ 64 - 1` (and forwards only the
underlying WriteLock/WriteUnlock pair), with no error raised. -/
theorem write_read_unlock_wraparound :
    run ThreadState.clean
        [Op.writeLock, Op.readLock, Op.writeUnlock, Op.readUnlock] =
      (⟨usizeMod - 1, 0⟩, [BaseCall.writeLock, BaseCall.writeUnlock]) ∧
    (ReadUnlock ThreadState.clean).1.LocalThreadReadLockCounter =
      usizeMod - 1 ∧
    (WriteUnlock ThreadState.clean).1.LocalThreadWriteLockCounter =
      usizeMod - 1 := by
  refine ⟨?_, rfl, rfl⟩
  rfl

end RecursiveReadWriteMutex

namespace ReadWriteMutex

theorem get_set_not {l : List PC} {t r : Nat} {v p q : PC}
    (hr : l[r]? = some p) (hv : ¬ v = q) (hp : ¬ p = q) :
    ¬ (l.set t v)[r]? = some q := by
  intro hcon
  by_cases hrt : r = t
  · subst hrt
    have ht : r < l.length := (List.getElem?_eq_some.mp hr).1
    rw [get_set_self v ht] at hcon
    injection hcon with hcon
    exact hv hcon
  · rw [get_set_other v (fun he => hrt he.symm)] at hcon
    rw [hr] at hcon
    injection hcon with hcon
    exact hp hcon

theorem get_set_not2 {l : List PC} {t r : Nat} {v q : PC}
    (hv : ¬ v = q) (hnot : ¬ l[r]? = some q) :
    ¬ (l.set t v)[r]? = some q := by
  intro hcon
  by_cases hrt : r = t
  · subst hrt
    have ht : r < l.length := by
      have := (List.getElem?_eq_some.mp hcon).1
      simpa using this
    rw [get_set_self v ht] at hcon
    injection hcon with hcon
    exact hv hcon
  · rw [get_set_other v (fun he => hrt he.symm)] at hcon
    exact hnot hcon

/-- C1: in every reachable state of the `ReadWriteMutex` transition
system, at most one thread holds exclusive (write) access, no thread
holds shared (read) access while a thread holds exclusive access,
`ReadCounter` is zero whenever a writer holds the lock, and
`ReadCounter` is the number of shared holders, hence nonnegative. -/
theorem mutual_exclusion (n : Nat) (s : State) (h : Reachable n s) :
    (∀ (t1 t2 : Nat), s.threads[t1]? = some PC.writeHeld →
      s.threads[t2]? = some PC.writeHeld → t1 = t2) ∧
    (∀ (t1 t2 : Nat) (pc : PC), s.threads[t1]? = some pc → counted pc = true →
      s.threads[t2]? = some PC.writeHeld → False) ∧
    (∀ (t : Nat), s.threads[t]? = some PC.writeHeld → s.ReadCounter = 0) ∧
    s.ReadCounter = (s.threads.countP counted : Int) ∧
    0 ≤ s.ReadCounter := by
  obtain ⟨hcnt, hwmh, hwmo, hrmh, hrmo, hflag, hwz, hlz⟩ := reachable_inv h
  refine ⟨?_, ?_, ?_, hcnt, ?_⟩
  · intro t1 t2 h1 h2
    have e1 := hwmh t1 .writeHeld h1 rfl
    have e2 := hwmh t2 .writeHeld h2 rfl
    rw [e1] at e2
    exact Option.some.inj e2
  · intro t1 t2 pc h1 hc h2
    have hz := hwz t2 .writeHeld h2 (Or.inr rfl)
    have hpos := countP_pos_of_get counted h1 hc
    rw [hcnt] at hz
    omega
  · intro t h1
    exact hwz t .writeHeld h1 (Or.inr rfl)
  · rw [hcnt]
    exact Int.ofNat_nonneg _

/-- Witness for C1 at a reachable state in which thread 0 holds shared
access after a full `ReadLock` and thread 1 is idle. -/
theorem mutual_exclusion_witness :
    Reachable 2 ⟨[PC.readHeld, PC.idle], none, none, 1, false⟩ ∧
    ((∀ (t1 t2 : Nat),
      (⟨[PC.readHeld, PC.idle], none, none, 1, false⟩ : State).threads[t1]? =
        some PC.writeHeld →
      (⟨[PC.readHeld, PC.idle], none, none, 1, false⟩ : State).threads[t2]? =
        some PC.writeHeld → t1 = t2) ∧
    (∀ (t1 t2 : Nat) (pc : PC),
      (⟨[PC.readHeld, PC.idle], none, none, 1, false⟩ : State).threads[t1]? =
        some pc → counted pc = true →
      (⟨[PC.readHeld, PC.idle], none, none, 1, false⟩ : State).threads[t2]? =
        some PC.writeHeld → False) ∧
    (∀ (t : Nat),
      (⟨[PC.readHeld, PC.idle], none, none, 1, false⟩ : State).threads[t]? =
        some PC.writeHeld →
      (⟨[PC.readHeld, PC.idle], none, none, 1, false⟩ : State).ReadCounter = 0) ∧
    (⟨[PC.readHeld, PC.idle], none, none, 1, false⟩ : State).ReadCounter =
      ((⟨[PC.readHeld, PC.idle], none, none, 1, false⟩ : State).threads.countP
        counted : Int) ∧
    0 ≤ (⟨[PC.readHeld, PC.idle], none, none, 1, false⟩ : State).ReadCounter) := by
  have h1 : Reachable 2 ⟨[PC.rl2, PC.idle], some 0, none, 0, false⟩ :=
    Relation.ReflTransGen.tail Relation.ReflTransGen.refl
      (Step.readLockW (start 2) 0 rfl rfl)
  have h2 : Reachable 2 ⟨[PC.rl3, PC.idle], some 0, some 0, 0, false⟩ :=
    Relation.ReflTransGen.tail h1 (Step.readLockR _ 0 rfl rfl)
  have h3 : Reachable 2 ⟨[PC.rl4, PC.idle], some 0, some 0, 1, false⟩ :=
    Relation.ReflTransGen.tail h2 (Step.readIncr _ 0 rfl)
  have h4 : Reachable 2 ⟨[PC.rl5, PC.idle], some 0, none, 1, false⟩ :=
    Relation.ReflTransGen.tail h3 (Step.readUnlockR _ 0 rfl)
  have h5 : Reachable 2 ⟨[PC.readHeld, PC.idle], none, none, 1, false⟩ :=
    Relation.ReflTransGen.tail h4 (Step.readUnlockW _ 0 rfl)
  exact ⟨h5, mutual_exclusion 2 _ h5⟩

/-- C5: in every reachable state in which a writer thread `w` is
blocked in `Cv.wait` and a reader thread `r` is in the notify loop of
`ReadUnlock` after decrementing `ReadCounter` to zero, the waiting
flag is set, the notify step of `r` is enabled and wakes `w`, and no
step lets `r` leave the notify loop while `w` is still blocked: the
`ReadUnlock` call that brought the counter to zero cannot complete
without waking the waiting writer (no lost wakeup). -/
theorem no_lost_wakeup (n : Nat) (s : State) (w r : Nat) (h : Reachable n s)
    (hw : s.threads[w]? = some PC.wl4b) (hr : s.threads[r]? = some PC.ru4) :
    s.IsCondVarWaiting = true ∧
    Step s { s with threads := s.threads.map wake } ∧
    (s.threads.map wake)[w]? = some PC.wl5 ∧
    ∀ (s' : State), Step s s' → ¬ s'.threads[r]? = some PC.ru5 := by
  have inv := reachable_inv h
  have hflag : s.IsCondVarWaiting = true := inv.flag_set w .wl4b hw rfl
  refine ⟨hflag, Step.ruNotify s r hr hflag, ?_, ?_⟩
  · rw [List.getElem?_map, hw]
    rfl
  · intro s' hs'
    cases hs' with
    | readLockW t hpc hwm => exact get_set_not hr (by decide) (by decide)
    | readLockR t hpc hrm => exact get_set_not hr (by decide) (by decide)
    | readIncr t hpc => exact get_set_not hr (by decide) (by decide)
    | readUnlockR t hpc => exact get_set_not hr (by decide) (by decide)
    | readUnlockW t hpc => exact get_set_not hr (by decide) (by decide)
    | ruLockR t hpc hrm => exact get_set_not hr (by decide) (by decide)
    | ruDecr t hpc => exact get_set_not hr (by decide) (by decide)
    | ruCheckZero t hpc hz => exact get_set_not hr (by decide) (by decide)
    | ruCheckPos t hpc hz =>
        intro hcon
        by_cases hrt : r = t
        · subst hrt
          rw [hr] at hpc
          injection hpc with hpc
          exact PC.noConfusion hpc
        · rw [get_set_other _ (fun he => hrt he.symm)] at hcon
          rw [hr] at hcon
          injection hcon with hcon
          exact PC.noConfusion hcon
    | ruNotify t hpc hf =>
        intro hcon
        rw [List.getElem?_map, hr] at hcon
        injection hcon with hcon
        exact PC.noConfusion hcon
    | ruLoopExit t hpc hf =>
        rw [hflag] at hf
        exact Bool.noConfusion hf
    | ruUnlockR t hpc => exact get_set_not hr (by decide) (by decide)
    | writeLockW t hpc hwm => exact get_set_not hr (by decide) (by decide)
    | writeSetFlag t hpc => exact get_set_not hr (by decide) (by decide)
    | writeCheckPos t hpc hc => exact get_set_not hr (by decide) (by decide)
    | writeCheckZero t hpc hc => exact get_set_not hr (by decide) (by decide)
    | writeBlock t hpc => exact get_set_not hr (by decide) (by decide)
    | writeClearFlag t hpc => exact get_set_not hr (by decide) (by decide)
    | writeUnlockW t hpc => exact get_set_not hr (by decide) (by decide)

/-- Witness for C5 at a reachable state in which thread 1 is blocked in
`Cv.wait` inside `WriteLock` and thread 0 has decremented `ReadCounter`
to zero and is in the notify loop of `ReadUnlock`. -/
theorem no_lost_wakeup_witness :
    Reachable 2 ⟨[PC.ru4, PC.wl4b], some 1, some 0, 0, true⟩ ∧
    (⟨[PC.ru4, PC.wl4b], some 1, some 0, 0, true⟩ : State).threads[1]? =
      some PC.wl4b ∧
    (⟨[PC.ru4, PC.wl4b], some 1, some 0, 0, true⟩ : State).threads[0]? =
      some PC.ru4 ∧
    ((⟨[PC.ru4, PC.wl4b], some 1, some 0, 0, true⟩ : State).IsCondVarWaiting =
      true ∧
    Step ⟨[PC.ru4, PC.wl4b], some 1, some 0, 0, true⟩
      { (⟨[PC.ru4, PC.wl4b], some 1, some 0, 0, true⟩ : State) with
        threads := [PC.ru4, PC.wl4b].map wake } ∧
    ([PC.ru4, PC.wl4b].map wake)[1]? = some PC.wl5 ∧
    ∀ (s' : State), Step ⟨[PC.ru4, PC.wl4b], some 1, some 0, 0, true⟩ s' →
      ¬ s'.threads[0]? = some PC.ru5) := by
  have h1 : Reachable 2 ⟨[PC.rl2, PC.idle], some 0, none, 0, false⟩ :=
    Relation.ReflTransGen.tail Relation.ReflTransGen.refl
      (Step.readLockW (start 2) 0 rfl rfl)
  have h2 : Reachable 2 ⟨[PC.rl3, PC.idle], some 0, some 0, 0, false⟩ :=
    Relation.ReflTransGen.tail h1 (Step.readLockR _ 0 rfl rfl)
  have h3 : Reachable 2 ⟨[PC.rl4, PC.idle], some 0, some 0, 1, false⟩ :=
    Relation.ReflTransGen.tail h2 (Step.readIncr _ 0 rfl)
  have h4 : Reachable 2 ⟨[PC.rl5, PC.idle], some 0, none, 1, false⟩ :=
    Relation.ReflTransGen.tail h3 (Step.readUnlockR _ 0 rfl)
  have h5 : Reachable 2 ⟨[PC.readHeld, PC.idle], none, none, 1, false⟩ :=
    Relation.ReflTransGen.tail h4 (Step.readUnlockW _ 0 rfl)
  have h6 : Reachable 2 ⟨[PC.readHeld, PC.wl2], some 1, none, 1, false⟩ :=
    Relation.ReflTransGen.tail h5 (Step.writeLockW _ 1 rfl rfl)
  have h7 : Reachable 2 ⟨[PC.readHeld, PC.wl3], some 1, none, 1, true⟩ :=
    Relation.ReflTransGen.tail h6 (Step.writeSetFlag _ 1 rfl)
  have h8 : Reachable 2 ⟨[PC.readHeld, PC.wl4a], some 1, none, 1, true⟩ :=
    Relation.ReflTransGen.tail h7 (Step.writeCheckPos _ 1 rfl (by decide))
  have h9 : Reachable 2 ⟨[PC.readHeld, PC.wl4b], some 1, none, 1, true⟩ :=
    Relation.ReflTransGen.tail h8 (Step.writeBlock _ 1 rfl)
  have h10 : Reachable 2 ⟨[PC.ru2, PC.wl4b], some 1, some 0, 1, true⟩ :=
    Relation.ReflTransGen.tail h9 (Step.ruLockR _ 0 rfl rfl)
  have h11 : Reachable 2 ⟨[PC.ru3, PC.wl4b], some 1, some 0, 0, true⟩ :=
    Relation.ReflTransGen.tail h10 (Step.ruDecr _ 0 rfl)
  have h12 : Reachable 2 ⟨[PC.ru4, PC.wl4b], some 1, some 0, 0, true⟩ :=
    Relation.ReflTransGen.tail h11 (Step.ruCheckZero _ 0 rfl rfl)
  exact ⟨h12, rfl, rfl, no_lost_wakeup 2 _ 1 0 h12 rfl rfl⟩

end ReadWriteMutex

namespace ReadWriteMutex

/-- C6: the `ReadLock` path acquires the writer gate `WriteMutex`,
increments `ReadCounter` while holding both the gate and the
bookkeeping lock `ReadMutex`, and releases the gate before returning:
in every reachable state a thread at the increment point holds both
internal mutexes, a thread that has returned from `ReadLock` holds
neither, a thread enters the `ReadLock` body only when no thread owns
the writer gate (the writer-preference mechanism: no new reader passes
while a writer holds or waits behind the gate), and the only way to
reach the returned-from-`ReadLock` point is the final gate release. -/
theorem ReadLock_gate_discipline (n : Nat) (s : State) (h : Reachable n s) :
    (∀ (t : Nat), s.threads[t]? = some PC.rl3 →
      s.WriteMutex = some t ∧ s.ReadMutex = some t) ∧
    (∀ (t : Nat), s.threads[t]? = some PC.readHeld →
      ¬ s.WriteMutex = some t ∧ ¬ s.ReadMutex = some t) ∧
    (∀ (s' : State) (t : Nat), Step s s' → s.threads[t]? = some PC.idle →
      s'.threads[t]? = some PC.rl2 → s.WriteMutex = none) ∧
    (∀ (s' : State) (t : Nat), Step s s' →
      s'.threads[t]? = some PC.readHeld →
      ¬ s.threads[t]? = some PC.readHeld → s.threads[t]? = some PC.rl5) := by
  have inv := reachable_inv h
  refine ⟨?_, ?_, ?_, ?_⟩
  · intro t ht
    exact ⟨inv.wm_holder t .rl3 ht rfl, inv.rm_holder t .rl3 ht rfl⟩
  · intro t ht
    constructor
    · intro hcon
      obtain ⟨pc, hget, hq⟩ := inv.wm_owner t hcon
      rw [ht] at hget
      injection hget with hget
      rw [← hget] at hq
      exact Bool.noConfusion hq
    · intro hcon
      obtain ⟨pc, hget, hq⟩ := inv.rm_owner t hcon
      rw [ht] at hget
      injection hget with hget
      rw [← hget] at hq
      exact Bool.noConfusion hq
  · intro s' t hs' hidle hrl2
    cases hs' with
    | readLockW u hpc hwm => exact hwm
    | readLockR u hpc hrm => exact absurd hrl2 (get_set_not hidle (by decide) (by decide))
    | readIncr u hpc => exact absurd hrl2 (get_set_not hidle (by decide) (by decide))
    | readUnlockR u hpc => exact absurd hrl2 (get_set_not hidle (by decide) (by decide))
    | readUnlockW u hpc => exact absurd hrl2 (get_set_not hidle (by decide) (by decide))
    | ruLockR u hpc hrm => exact absurd hrl2 (get_set_not hidle (by decide) (by decide))
    | ruDecr u hpc => exact absurd hrl2 (get_set_not hidle (by decide) (by decide))
    | ruCheckZero u hpc hz => exact absurd hrl2 (get_set_not hidle (by decide) (by decide))
    | ruCheckPos u hpc hz => exact absurd hrl2 (get_set_not hidle (by decide) (by decide))
    | ruNotify u hpc hf =>
        rw [List.getElem?_map, hidle] at hrl2
        injection hrl2 with hrl2
        exact PC.noConfusion hrl2
    | ruLoopExit u hpc hf => exact absurd hrl2 (get_set_not hidle (by decide) (by decide))
    | ruUnlockR u hpc => exact absurd hrl2 (get_set_not hidle (by decide) (by decide))
    | writeLockW u hpc hwm => exact absurd hrl2 (get_set_not hidle (by decide) (by decide))
    | writeSetFlag u hpc => exact absurd hrl2 (get_set_not hidle (by decide) (by decide))
    | writeCheckPos u hpc hc => exact absurd hrl2 (get_set_not hidle (by decide) (by decide))
    | writeCheckZero u hpc hc => exact absurd hrl2 (get_set_not hidle (by decide) (by decide))
    | writeBlock u hpc => exact absurd hrl2 (get_set_not hidle (by decide) (by decide))
    | writeClearFlag u hpc => exact absurd hrl2 (get_set_not hidle (by decide) (by decide))
    | writeUnlockW u hpc => exact absurd hrl2 (get_set_not hidle (by decide) (by decide))
  · intro s' t hs' hheld hnot
    cases hs' with
    | readUnlockW u hpc =>
        by_cases htu : t = u
        · subst htu
          exact hpc
        · rw [get_set_other _ (fun he => htu he.symm)] at hheld
          exact absurd hheld hnot
    | readLockW u hpc hwm =>
        exact absurd hheld (get_set_not2 (by decide) hnot)
    | readLockR u hpc hrm =>
        exact absurd hheld (get_set_not2 (by decide) hnot)
    | readIncr u hpc =>
        exact absurd hheld (get_set_not2 (by decide) hnot)
    | readUnlockR u hpc =>
        exact absurd hheld (get_set_not2 (by decide) hnot)
    | ruLockR u hpc hrm =>
        exact absurd hheld (get_set_not2 (by decide) hnot)
    | ruDecr u hpc =>
        exact absurd hheld (get_set_not2 (by decide) hnot)
    | ruCheckZero u hpc hz =>
        exact absurd hheld (get_set_not2 (by decide) hnot)
    | ruCheckPos u hpc hz =>
        exact absurd hheld (get_set_not2 (by decide) hnot)
    | ruNotify u hpc hf =>
        rw [List.getElem?_map] at hheld
        cases hget : s.threads[t]? with
        | none => rw [hget] at hheld; exact Option.noConfusion hheld
        | some p =>
            rw [hget] at hheld
            injection hheld with hheld
            have hp : p = PC.readHeld := by
              cases p <;> first | rfl | exact PC.noConfusion hheld
            rw [hp] at hget
            exact absurd hget hnot
    | ruLoopExit u hpc hf =>
        exact absurd hheld (get_set_not2 (by decide) hnot)
    | ruUnlockR u hpc =>
        exact absurd hheld (get_set_not2 (by decide) hnot)
    | writeLockW u hpc hwm =>
        exact absurd hheld (get_set_not2 (by decide) hnot)
    | writeSetFlag u hpc =>
        exact absurd hheld (get_set_not2 (by decide) hnot)
    | writeCheckPos u hpc hc =>
        exact absurd hheld (get_set_not2 (by decide) hnot)
    | writeCheckZero u hpc hc =>
        exact absurd hheld (get_set_not2 (by decide) hnot)
    | writeBlock u hpc =>
        exact absurd hheld (get_set_not2 (by decide) hnot)
    | writeClearFlag u hpc =>
        exact absurd hheld (get_set_not2 (by decide) hnot)
    | writeUnlockW u hpc =>
        exact absurd hheld (get_set_not2 (by decide) hnot)

end ReadWriteMutex

namespace ReadWriteMutex

/-- Witness for C6 at a reachable state in which thread 0 has returned
from `ReadLock` and holds neither internal mutex. -/
theorem ReadLock_gate_discipline_witness :
    Reachable 2 ⟨[PC.readHeld, PC.idle], none, none, 1, false⟩ ∧
    ((∀ (t : Nat),
      (⟨[PC.readHeld, PC.idle], none, none, 1, false⟩ : State).threads[t]? =
        some PC.rl3 →
      (⟨[PC.readHeld, PC.idle], none, none, 1, false⟩ : State).WriteMutex =
        some t ∧
      (⟨[PC.readHeld, PC.idle], none, none, 1, false⟩ : State).ReadMutex =
        some t) ∧
    (∀ (t : Nat),
      (⟨[PC.readHeld, PC.idle], none, none, 1, false⟩ : State).threads[t]? =
        some PC.readHeld →
      ¬ (⟨[PC.readHeld, PC.idle], none, none, 1, false⟩ : State).WriteMutex =
        some t ∧
      ¬ (⟨[PC.readHeld, PC.idle], none, none, 1, false⟩ : State).ReadMutex =
        some t) ∧
    (∀ (s' : State) (t : Nat),
      Step ⟨[PC.readHeld, PC.idle], none, none, 1, false⟩ s' →
      (⟨[PC.readHeld, PC.idle], none, none, 1, false⟩ : State).threads[t]? =
        some PC.idle →
      s'.threads[t]? = some PC.rl2 →
      (⟨[PC.readHeld, PC.idle], none, none, 1, false⟩ : State).WriteMutex =
        none) ∧
    (∀ (s' : State) (t : Nat),
      Step ⟨[PC.readHeld, PC.idle], none, none, 1, false⟩ s' →
      s'.threads[t]? = some PC.readHeld →
      ¬ (⟨[PC.readHeld, PC.idle], none, none, 1, false⟩ : State).threads[t]? =
        some PC.readHeld →
      (⟨[PC.readHeld, PC.idle], none, none, 1, false⟩ : State).threads[t]? =
        some PC.rl5)) := by
  have h1 : Reachable 2 ⟨[PC.rl2, PC.idle], some 0, none, 0, false⟩ :=
    Relation.ReflTransGen.tail Relation.ReflTransGen.refl
      (Step.readLockW (start 2) 0 rfl rfl)
  have h2 : Reachable 2 ⟨[PC.rl3, PC.idle], some 0, some 0, 0, false⟩ :=
    Relation.ReflTransGen.tail h1 (Step.readLockR _ 0 rfl rfl)
  have h3 : Reachable 2 ⟨[PC.rl4, PC.idle], some 0, some 0, 1, false⟩ :=
    Relation.ReflTransGen.tail h2 (Step.readIncr _ 0 rfl)
  have h4 : Reachable 2 ⟨[PC.rl5, PC.idle], some 0, none, 1, false⟩ :=
    Relation.ReflTransGen.tail h3 (Step.readUnlockR _ 0 rfl)
  have h5 : Reachable 2 ⟨[PC.readHeld, PC.idle], none, none, 1, false⟩ :=
    Relation.ReflTransGen.tail h4 (Step.readUnlockW _ 0 rfl)
  exact ⟨h5, ReadLock_gate_discipline 2 _ h5⟩

end ReadWriteMutex
